import Mathlib

/-!
# Verification of the streams user state machine

A shallow embedding of the `tribe-health/streams` protocol engine core:
the permissioned cursor store (`src/streams/src/api/cursor_store.rs`), the
user state and its message handlers and send operations
(`src/streams/src/api/user.rs`), the transport contract
(`src/lets/src/transport/mod.rs`), and the encrypted backup/restore of
user state.

Hash maps and hash sets of the source are represented as association
lists and duplicate-free lists; the sponge primitive, the identity
subsystem and the per-type message codecs are external collaborators of
the core (spec §6) and are modelled from the spec where their behaviour
matters (collision-resistant hashes become injective constructions,
sponge MACs become injective functions of the key).
-/

set_option maxRecDepth 8192

namespace Streams

/-! ## Identifiers, permissions and addresses -/

/-- Modelled from the spec: an `Identifier` is a tagged union of raw key
bytes with equality over the bytes (`src/LETS/src/id/identifier.rs`);
the byte payload is abstracted to a number. -/
abbrev Identifier := Nat

/-- Modelled from the spec: `PermissionDuration` is `{Perpetual, UntilSequence(n)}`
(`lets` id subsystem; advisory only, no automatic revocation). -/
inductive PermissionDuration where
  | perpetual : PermissionDuration
  | untilSequence (n : Nat) : PermissionDuration
deriving DecidableEq, Repr

/-- Modelled from the spec: `Permissioned⟨Identifier⟩` is the tagged union
`{Read(id), ReadWrite(id, duration), Admin(id)}`; two values are equal only
when tag, id and duration all match. -/
inductive Permissioned where
  | read (id : Identifier) : Permissioned
  | readWrite (id : Identifier) (d : PermissionDuration) : Permissioned
  | admin (id : Identifier) : Permissioned
deriving DecidableEq, Repr

namespace Permissioned

/-- `Permissioned::identifier()`: comparison by identifier alone. -/
def identifier : Permissioned → Identifier
  | .read i => i
  | .readWrite i _ => i
  | .admin i => i

/-- Modelled from the spec: `is_readonly` holds exactly for the `Read` variant. -/
def isReadonly : Permissioned → Bool
  | .read _ => true
  | _ => false

/-- Modelled from the spec: `is_admin` holds exactly for the `Admin` variant. -/
def isAdmin : Permissioned → Bool
  | .admin _ => true
  | _ => false

end Permissioned

/-- A branch topic. The source uses UTF-8 strings; topics are only ever
compared for equality and hashed, so they are abstracted to numbers. -/
abbrev Topic := Nat

/-- Modelled from the spec: `AppAddr = sponge-hash(author-identifier ‖ base-topic)`,
collision-resistant; modelled as the injective pair construction. -/
structure AppAddr where
  author : Identifier
  topic : Topic
deriving DecidableEq, Repr

/-- Modelled from the spec:
`MsgId = sponge-hash(AppAddr ‖ publisher-identifier ‖ topic ‖ cursor)`,
collision-resistant; modelled as the injective tuple construction. -/
structure MsgId where
  base : AppAddr
  publisher : Identifier
  topic : Topic
  cursor : Nat
deriving DecidableEq, Repr

instance : Inhabited MsgId := ⟨⟨⟨0, 0⟩, 0, 0, 0⟩⟩

/-- `MsgId::gen`: deterministic derivation of a message id. -/
def MsgId.gen (base : AppAddr) (publisher : Identifier) (topic : Topic) (cursor : Nat) : MsgId :=
  ⟨base, publisher, topic, cursor⟩

/-- An `Address` is an `(AppAddr, MsgId)` pair. -/
structure Address where
  base : AppAddr
  relative : MsgId
deriving DecidableEq, Repr

/-- A sponge snapshot (state of the sponge after a commit); treated as an
abstract value, represented by a number. -/
abbrev Spongos := Nat

/-- Wire bytes of a message; the transport treats them as an abstract blob. -/
abbrev TransportMessage := Nat

/-- Modelled from the spec: an `Identity` owns the keying material of one
identifier; abstracted to the identifier it controls. -/
abbrev Identity := Nat

/-- `Identity::identifier()`. -/
def Identity.identifier (i : Identity) : Identifier := i

/-- A pre-shared-key id (32 bytes, abstracted). -/
abbrev PskId := Nat

/-- A pre-shared key (32 bytes, abstracted). -/
abbrev Psk := Nat

/-! ## Association lists

The source keeps its stores in `hashbrown::HashMap`s. They are embedded as
association lists: `lookup` is keyed search, `insert` replaces the value at
an existing key in place and otherwise appends, matching `HashMap::insert`
up to the (unobservable) iteration order. -/

namespace AList

variable {κ : Type} {α : Type} [DecidableEq κ]

/-- Keyed lookup, first matching entry. -/
def lookup (l : List (κ × α)) (k : κ) : Option α :=
  (l.find? (fun e => decide (e.1 = k))).map (·.2)

/-- `HashMap::insert`: replace the value at the key if present, else append. -/
def insert (l : List (κ × α)) (k : κ) (v : α) : List (κ × α) :=
  if l.any (fun e => decide (e.1 = k)) then
    l.map (fun e => if e.1 = k then (k, v) else e)
  else
    l ++ [(k, v)]

/-- `HashMap::remove`: drop the entry at the key. -/
def erase (l : List (κ × α)) (k : κ) : List (κ × α) :=
  l.filter (fun e => decide (e.1 ≠ k))


end AList

/-! ## The cursor store (`src/streams/src/api/cursor_store.rs`) -/

/-- Per-branch store: permissioned identifier → sequence cursor, plus the
branch's latest-link message id (`InnerCursorStore`). -/
structure InnerCursorStore where
  cursors : List (Permissioned × Nat)
  latestLink : MsgId
deriving DecidableEq, Repr

instance : Inhabited InnerCursorStore := ⟨⟨[], default⟩⟩

/-- `CursorStore`: mapping topic → `InnerCursorStore`. -/
abbrev CursorStore := List (Topic × InnerCursorStore)

namespace InnerCursorStore

/-- The first entry of the branch whose permission has the given identifier
(the search underlying `get_permission`/`get_cursor`). -/
def entryFor (b : InnerCursorStore) (id : Identifier) : Option (Permissioned × Nat) :=
  b.cursors.find? (fun e => decide (e.1.identifier = id))

/-- The per-branch step of `CursorStore::remove`: find the entry whose
permission has the given identifier and remove it by its full key. -/
def removeId (b : InnerCursorStore) (id : Identifier) : InnerCursorStore :=
  match b.cursors.find? (fun e => decide (e.1.identifier = id)) with
  | none => b
  | some e => { b with cursors := b.cursors.eraseP (fun x => decide (x.1 = e.1)) }

end InnerCursorStore

namespace CursorStore

/-- `CursorStore::new_branch`: insert an empty branch, returning the new
store and whether the topic was newly created. -/
def newBranch (cs : CursorStore) (t : Topic) : CursorStore × Bool :=
  (AList.insert cs t default, ¬(AList.lookup cs t).isSome)

/-- `CursorStore::remove`: remove the entry for the identifier from every
branch (the boolean result of the source is not modelled; no caller of the
core uses it). -/
def remove (cs : CursorStore) (id : Identifier) : CursorStore :=
  cs.map (fun e => (e.1, e.2.removeId id))

/-- `CursorStore::get_permission`. -/
def getPermission (cs : CursorStore) (t : Topic) (id : Identifier) : Option Permissioned :=
  (AList.lookup cs t).bind (fun b => (b.entryFor id).map (·.1))

/-- `CursorStore::get_cursor`. -/
def getCursor (cs : CursorStore) (t : Topic) (id : Identifier) : Option Nat :=
  (AList.lookup cs t).bind (fun b => (b.entryFor id).map (·.2))

/-- The branch entry (permission and cursor) for an identifier; `get_permission`
and `get_cursor` are its two projections. -/
def entryAt (cs : CursorStore) (t : Topic) (id : Identifier) : Option (Permissioned × Nat) :=
  (AList.lookup cs t).bind (fun b => b.entryFor id)

/-- `CursorStore::cursors_by_topic`. -/
def cursorsByTopic (cs : CursorStore) (t : Topic) : Option (List (Permissioned × Nat)) :=
  (AList.lookup cs t).map (·.cursors)

/-- `HashMap::get_mut(topic).and_then(...)`: apply `f` to the branch of `t`
when it exists, otherwise do nothing. -/
def modifyBranch (cs : CursorStore) (t : Topic) (f : InnerCursorStore → InnerCursorStore) :
    CursorStore :=
  if (AList.lookup cs t).isSome then
    cs.map (fun e => (e.1, if e.1 = t then f e.2 else e.2))
  else cs

/-- `CursorStore::insert_cursor`: when the branch already tracks the
identifier under a *different* permission, the old entry is removed from every
branch and the previously stored cursor value is retained (the `cursor`
argument is dropped); otherwise the pair is inserted as given into the branch
of `t` (if that branch exists). -/
def insertCursor (cs : CursorStore) (t : Topic) (p : Permissioned) (c : Nat) : CursorStore :=
  let old := getPermission cs t p.identifier
  let cursor : Nat :=
    match old with
    | some q => if q ≠ p then (getCursor cs t p.identifier).getD 0 else c
    | none => c
  let cs₁ : CursorStore :=
    match old with
    | some q => if q ≠ p then remove cs p.identifier else cs
    | none => cs
  modifyBranch cs₁ t (fun b => { b with cursors := AList.insert b.cursors p cursor })

/-- `CursorStore::set_latest_link`: update the branch's latest link, creating
the branch when the topic is unknown. -/
def setLatestLink (cs : CursorStore) (t : Topic) (l : MsgId) : CursorStore :=
  if (AList.lookup cs t).isSome then
    cs.map (fun e => (e.1, if e.1 = t then { cursors := e.2.cursors, latestLink := l } else e.2))
  else cs ++ [(t, { cursors := [], latestLink := l })]

/-- `CursorStore::get_latest_link`. -/
def getLatestLink (cs : CursorStore) (t : Topic) : Option MsgId :=
  (AList.lookup cs t).map (·.latestLink)

/-- The invariant that the branch of `t` tracks each identifier at most once
(spec §8, invariant 1). -/
def BranchNodupIds (cs : CursorStore) (t : Topic) : Prop :=
  ∀ b, AList.lookup cs t = some b → (b.cursors.map (·.1.identifier)).Nodup

end CursorStore

/-! ## User state (`src/streams/src/api/user.rs`) -/

/-- Announcement is always the first message of authors. -/
def ANN_MESSAGE_NUM : Nat := 0

/-- Subscription is always the first message of subscribers. -/
def SUB_MESSAGE_NUM : Nat := 0

/-- First non-reserved message number. -/
def INIT_MESSAGE_NUM : Nat := 1

/-- The aggregate user state (`struct State`). -/
structure State where
  user_id : Option Identity
  stream_address : Option Address
  author_identifier : Option Identifier
  cursor_store : CursorStore
  psk_store : List (PskId × Psk)
  subscribers : List Identifier
  spongos_store : List (MsgId × Spongos)
  base_branch : Topic
  lean : Bool
  topics : List Topic
deriving DecidableEq, Repr

/-- `State::default()`: every field at its default. -/
def State.dflt : State :=
  { user_id := none, stream_address := none, author_identifier := none,
    cursor_store := [], psk_store := [], subscribers := [], spongos_store := [],
    base_branch := 0, lean := false, topics := [] }

/-- `struct User<T>`: a transport plus the state. -/
structure User (τ : Type) where
  transport : τ
  state : State

/-- `impl PartialEq for User`: equality is determined by the state alone. -/
def User.beq {τ : Type} (a b : User τ) : Bool := decide (a.state = b.state)

/-- Modelled from the spec: `TopicHash` is a collision-resistant sponge hash of
the topic bytes; the hash is modelled as the identity embedding. -/
abbrev TopicHash := Topic

/-- The parsed message header (HDF) fields a handler consults: sequence
number, publisher, topic hash, optional linked message address. The
message-type byte is the dispatch in `handle_message` and is implicit in
which handler is invoked. -/
structure HDF where
  sequence : Nat
  publisher : Identifier
  topicHash : TopicHash
  linkedMsgAddress : Option MsgId
deriving DecidableEq, Repr

/-- The result of handling a message. An orphan is populated only with the
parsed header (`Message::orphan(address, preparsed)`); a full message also
carries unwrapped content, which is outside the scope of the embedded
claims. -/
inductive Message where
  | orphan (address : Address) (header : HDF) : Message
  | full (address : Address) (header : HDF) : Message
deriving DecidableEq, Repr

/-- `User::topic_by_hash`: find a known topic with the given hash. -/
def topicByHash (s : State) (h : TopicHash) : Option Topic :=
  s.topics.find? (fun t => decide (t = h))

/-- `User::cursor`: the user's own cursor in a branch. -/
def State.cursor (s : State) (t : Topic) : Option Nat :=
  s.user_id.bind (fun i => CursorStore.getCursor s.cursor_store t (Identity.identifier i))

/-- `User::next_cursor`: own cursor plus one (`none` models the
"User is not a publisher" error). -/
def State.nextCursor (s : State) (t : Topic) : Option Nat :=
  (s.cursor t).map (· + 1)

/-- `HashSet::insert` on a duplicate-free list. -/
def insertSet {α : Type} [DecidableEq α] (l : List α) (x : α) : List α :=
  if x ∈ l then l else l ++ [x]

/-- `User::store_spongos`: in lean mode evict the linked predecessor's
snapshot unless it is the stream announcement, then store the new one. -/
def storeSpongos (s : State) (msgAddress : MsgId) (sp : Spongos) (linkedMsgAddress : MsgId) :
    State :=
  let isStreamAddress :=
    match s.stream_address with
    | some a => decide (a.relative = linkedMsgAddress)
    | none => false
  let store₁ :=
    if s.lean && !isStreamAddress then AList.erase s.spongos_store linkedMsgAddress
    else s.spongos_store
  { s with spongos_store := AList.insert store₁ msgAddress sp }

/-- `User::should_store_cursor`: store a cursor for a keyload recipient iff it
is not read-only and not already tracked under the identical permission. -/
def shouldStoreCursor (cs : CursorStore) (t : Topic) (subscriber : Permissioned) : Bool :=
  let permission := CursorStore.getPermission cs t subscriber.identifier
  let trackedAndEqual := permission.isSome && decide (permission = some subscriber)
  !subscriber.isReadonly && !trackedAndEqual

/-- Error kinds of the core (spec §7); the source reports them as `anyhow`
errors and two `expect` panics, all modelled as typed failures. -/
inductive Err where
  | noIdentity : Err
  | notJoined : Err
  | unknownTopic : Err
  | permissionDenied : Err
  | missingCursor : Err
  | noLatestLink : Err
  | missingSpongos : Err
  | duplicateAddress : Err
  | noLinkedAddress : Err
  | missingAuthor : Err
deriving DecidableEq, Repr

/-- Modelled from the spec: a wrap/unwrap codec copies the linked message's
sponge snapshot and mutates it into the handled message's snapshot; the
mutation is abstracted as a deterministic step on the abstract snapshot. -/
def evolveSpongos (linked : Spongos) : Spongos := linked + 1

/-- Modelled from the spec: wrapped wire bytes; the transport stores them as
an abstract blob and the core never inspects them. -/
def wireBytes : TransportMessage := 0

/-- `User::handle_signed_packet`. The cursor of the publisher is advanced
before the linked snapshot is looked up; an absent snapshot yields an orphan
message. The unwrap of the body (and its signature check) is outside the
core; the success path is modelled as succeeding. -/
def handleSignedPacket (s : State) (address : Address) (hdr : HDF) :
    Except Err (Message × State) :=
  match topicByHash s hdr.topicHash with
  | none => .error .unknownTopic
  | some topic =>
  match CursorStore.getPermission s.cursor_store topic hdr.publisher with
  | none => .error .missingCursor
  | some permission =>
  let s₁ := { s with cursor_store :=
    CursorStore.insertCursor s.cursor_store topic permission hdr.sequence }
  match hdr.linkedMsgAddress with
  | none => .error .noLinkedAddress
  | some linked =>
  match AList.lookup s₁.spongos_store linked with
  | none => .ok (Message.orphan address hdr, s₁)
  | some linkedSpongos =>
    let sp := evolveSpongos linkedSpongos
    let s₂ := storeSpongos s₁ address.relative sp linked
    let s₃ := { s₂ with cursor_store :=
      CursorStore.setLatestLink s₂.cursor_store topic address.relative }
    .ok (Message.full address hdr, s₃)

/-- One step of the keyload demotion loop: a stored permission that is neither
the author's nor listed among the new recipients is re-bound to `Read`. -/
def demoteStep (authorIdentifier : Identifier) (subscribers : List Permissioned) (t : Topic)
    (cs : CursorStore) (e : Permissioned × Nat) : CursorStore :=
  if decide (e.1.identifier = authorIdentifier)
      || subscribers.any (fun p => decide (p.identifier = e.1.identifier)) then cs
  else CursorStore.insertCursor cs t (.read e.1.identifier) e.2

/-- The keyload demotion loop over the snapshot of stored cursors. -/
def demoteLoop (authorIdentifier : Identifier) (subscribers : List Permissioned) (t : Topic)
    (stored : List (Permissioned × Nat)) (cs : CursorStore) : CursorStore :=
  stored.foldl (demoteStep authorIdentifier subscribers t) cs

/-- One step of the keyload recipient-insertion loop. -/
def insertStep (t : Topic) (cs : CursorStore) (subscriber : Permissioned) : CursorStore :=
  if shouldStoreCursor cs t subscriber then
    CursorStore.insertCursor cs t subscriber INIT_MESSAGE_NUM
  else cs

/-- The keyload recipient-insertion loop. -/
def insertLoop (t : Topic) (subscribers : List Permissioned) (cs : CursorStore) : CursorStore :=
  subscribers.foldl (insertStep t) cs

/-- `User::handle_keyload`. The unwrap of the body is outside the core: its
outputs — the listed recipients and the message's sponge snapshot — are taken
as arguments, and the success of the cryptographic unwrap is assumed. -/
def handleKeyload (s : State) (address : Address) (hdr : HDF)
    (subscribers : List Permissioned) (newSpongos : Spongos) : Except Err State :=
  match s.stream_address with
  | none => .error .notJoined
  | some streamAddress =>
  match topicByHash s hdr.topicHash with
  | none => .error .unknownTopic
  | some topic =>
  match CursorStore.getPermission s.cursor_store topic hdr.publisher with
  | none => .error .missingCursor
  | some perm =>
  if !perm.isAdmin then .error .permissionDenied
  else
  let cs₁ := CursorStore.insertCursor s.cursor_store topic (.admin hdr.publisher) hdr.sequence
  match s.author_identifier with
  | none => .error .missingAuthor
  | some authorIdentifier =>
  match AList.lookup s.spongos_store streamAddress.relative with
  | none => .error .missingSpongos
  | some _ =>
  let spongosStore₁ := AList.insert s.spongos_store address.relative newSpongos
  match CursorStore.cursorsByTopic cs₁ topic with
  | none => .error .unknownTopic
  | some storedSubscribers =>
  let cs₂ := demoteLoop authorIdentifier subscribers topic storedSubscribers cs₁
  let cs₃ := insertLoop topic subscribers cs₂
  let cs₄ := CursorStore.setLatestLink cs₃ topic address.relative
  .ok { s with cursor_store := cs₄, spongos_store := spongosStore₁ }

/-! ## Transport (`src/lets/src/transport/mod.rs`, contract of spec §6) -/

/-- The two failures `recv_message` distinguishes. -/
inductive TransportError where
  | notFound (address : Address) : TransportError
  | moreThanOne (address : Address) : TransportError
deriving DecidableEq, Repr

/-- The transport contract: zero or more opaque messages stored per address. -/
abbrev Transport := List (Address × List TransportMessage)

/-- `Transport::recv_messages`: the messages at an address. -/
def recvMessages (tr : Transport) (address : Address) : List TransportMessage :=
  (AList.lookup tr address).getD []

/-- `Transport::recv_message` (default method): pop the last message of the
batch; fail when the batch was empty or still has messages left. -/
def recvMessage (msgs : List TransportMessage) (address : Address) :
    Except TransportError TransportMessage :=
  match msgs.getLast? with
  | some msg =>
    if msgs.dropLast.isEmpty then .ok msg else .error (.moreThanOne address)
  | none => .error (.notFound address)

/-- `recv_message` applied to the messages held by the transport. -/
def recvMessageAt (tr : Transport) (address : Address) :
    Except TransportError TransportMessage :=
  recvMessage (recvMessages tr address) address

/-- `Transport::send_message`: store the message at the address. -/
def sendMessage (tr : Transport) (address : Address) (msg : TransportMessage) : Transport :=
  match AList.lookup tr address with
  | some msgs => AList.insert tr address (msgs ++ [msg])
  | none => tr ++ [(address, [msg])]

/-! ## Send operations -/

/-- `User::unsubscribe`: link to the latest message of the base branch, bump
the own cursor for the message id, probe the transport for a duplicate, send,
then commit `Read(identifier)` at the bumped cursor and store the snapshot. -/
def unsubscribe (s : State) (tr : Transport) :
    Except Err (State × Transport × Address) :=
  match s.stream_address with
  | none => .error .notJoined
  | some streamAddress =>
  match s.user_id with
  | none => .error .noIdentity
  | some userId =>
  let identifier := Identity.identifier userId
  let baseBranch := s.base_branch
  match CursorStore.getLatestLink s.cursor_store baseBranch with
  | none => .error .noLatestLink
  | some linkTo =>
  match State.nextCursor s baseBranch with
  | none => .error .missingCursor
  | some newCursor =>
  let relAddress := MsgId.gen streamAddress.base identifier baseBranch newCursor
  match AList.lookup s.spongos_store linkTo with
  | none => .error .missingSpongos
  | some linkedSpongos =>
  let spongos := evolveSpongos linkedSpongos
  let messageAddress : Address := ⟨streamAddress.base, relAddress⟩
  match recvMessageAt tr messageAddress with
  | .ok _ => .error .duplicateAddress
  | .error _ =>
    let tr' := sendMessage tr messageAddress wireBytes
    let permission := Permissioned.read identifier
    let s₁ := { s with cursor_store :=
      CursorStore.insertCursor s.cursor_store baseBranch permission newCursor }
    let s₂ := storeSpongos s₁ relAddress spongos linkTo
    .ok (s₂, tr', messageAddress)

/-- `User::new_branch`: announce a new branch linked to the latest message of
the source branch. Note: unlike the six other send operations, the source
sends immediately after wrapping, without probing the transport for an
existing message at the computed address. -/
def newBranch (s : State) (tr : Transport) (fromTopic toTopic : Topic) :
    Except Err (State × Transport × Address) :=
  match s.stream_address with
  | none => .error .notJoined
  | some streamAddress =>
  match s.user_id with
  | none => .error .noIdentity
  | some userId =>
  let identifier := Identity.identifier userId
  match CursorStore.getPermission s.cursor_store fromTopic identifier with
  | none => .error .missingCursor
  | some permission =>
  if permission.isReadonly then .error .permissionDenied
  else
  match CursorStore.getLatestLink s.cursor_store fromTopic with
  | none => .error .noLatestLink
  | some linkTo =>
  match State.nextCursor s fromTopic with
  | none => .error .missingCursor
  | some userCursor =>
  let msgid := MsgId.gen streamAddress.base identifier fromTopic userCursor
  let address : Address := ⟨streamAddress.base, msgid⟩
  match AList.lookup s.spongos_store linkTo with
  | none => .error .missingSpongos
  | some linkedSpongos =>
  let tr' := sendMessage tr address wireBytes
  let cs₁ := (CursorStore.newBranch s.cursor_store toTopic).1
  let topics₁ := insertSet s.topics toTopic
  match State.nextCursor { s with cursor_store := cs₁ } fromTopic with
  | none => .error .missingCursor
  | some nextC =>
  let cs₂ := CursorStore.insertCursor cs₁ fromTopic (.admin identifier) nextC
  let spongos₁ := AList.insert s.spongos_store address.relative (evolveSpongos linkedSpongos)
  match CursorStore.cursorsByTopic cs₂ fromTopic with
  | none => .error .unknownTopic
  | some prevPermissions =>
  let cs₃ := (prevPermissions.map (·.1)).foldl
    (fun cs id => CursorStore.insertCursor cs toTopic id INIT_MESSAGE_NUM) cs₂
  let cs₄ := CursorStore.setLatestLink cs₃ toTopic address.relative
  .ok ({ s with cursor_store := cs₄, topics := topics₁, spongos_store := spongos₁ },
    tr', address)


/-! ## Backup and restore (`User::backup`/`User::restore`, spec §4.6 and §6)

The DDML command surface (absorb/mask/squeeze over the sponge) is an external
collaborator; its masking is a reversible sponge encryption, so the state
serialization is modelled as a plain token stream in the field order of the
`ContentWrap<State>`/`ContentUnwrap<State>` implementations, and the two MACs
as injective functions of the derived key (and absorbed payload). -/

/-- Masked optional value (`mask(Maybe)`): a presence byte, then the value. -/
def serOptNat : Option Nat → List Nat
  | none => [0]
  | some v => [1, v]

def serMsgId (m : MsgId) : List Nat :=
  [m.base.author, m.base.topic, m.publisher, m.topic, m.cursor]

def serAddress (a : Address) : List Nat :=
  [a.base.author, a.base.topic] ++ serMsgId a.relative

def serOptAddress : Option Address → List Nat
  | none => [0]
  | some a => 1 :: serAddress a

def serDuration : PermissionDuration → List Nat
  | .perpetual => [0]
  | .untilSequence n => [1, n]

/-- Modelled from the spec: a `Permissioned` is wire-encoded as a one-byte
tag, the identifier, and for `ReadWrite` the duration. -/
def serPerm : Permissioned → List Nat
  | .read i => [0, i]
  | .readWrite i d => [1, i] ++ serDuration d
  | .admin i => [2, i]

/-- Concatenated serialization of a list's items. -/
def serList {α : Type} : List α → (α → List Nat) → List Nat
  | [], _ => []
  | x :: rest, f => f x ++ serList rest f

/-- `mask(Size)` then the items. -/
def serSized {α : Type} (l : List α) (f : α → List Nat) : List Nat :=
  l.length :: serList l f

/-- One branch as the topics section serializes it: topic, latest link,
sized cursor list. -/
def serBranch (e : Topic × InnerCursorStore) : List Nat :=
  e.1 :: (serMsgId e.2.latestLink ++ serSized e.2.cursors (fun en => serPerm en.1 ++ [en.2]))

/-- The topics section entry for one topic, via the cursor store lookups the
source performs. -/
def serTopicSection (s : State) (t : Topic) : List Nat :=
  t :: (serMsgId ((CursorStore.getLatestLink s.cursor_store t).getD default)
    ++ serSized ((CursorStore.cursorsByTopic s.cursor_store t).getD [])
      (fun en => serPerm en.1 ++ [en.2]))

/-- The state serialization, in the exact field order of
`ContentWrap<State>::wrap`: the three masked optionals, the base branch, the
sized snapshot store, the sized topics section (only topics whose branch
exists), the sized subscriber list, the sized PSK store, the lean byte. -/
def serializeState (s : State) : List Nat :=
  serOptNat s.user_id ++ serOptAddress s.stream_address ++ serOptNat s.author_identifier
    ++ [s.base_branch]
    ++ serSized s.spongos_store (fun e => serMsgId e.1 ++ [e.2])
    ++ serSized (s.topics.filter
        (fun t => (CursorStore.getLatestLink s.cursor_store t).isSome))
      (serTopicSection s)
    ++ serSized s.subscribers (fun i => [i])
    ++ serSized s.psk_store (fun e => [e.1, e.2])
    ++ [if s.lean then 1 else 0]

/-- Read one number off the stream. -/
def rdNat : List Nat → Option (Nat × List Nat)
  | [] => none
  | x :: r => some (x, r)

def rdOptNat (inp : List Nat) : Option (Option Nat × List Nat) := do
  let (tag, r) ← rdNat inp
  if tag = 1 then
    let (v, r') ← rdNat r
    pure (some v, r')
  else pure (none, r)

def rdMsgId (inp : List Nat) : Option (MsgId × List Nat) := do
  let (a, r1) ← rdNat inp
  let (b, r2) ← rdNat r1
  let (p, r3) ← rdNat r2
  let (t, r4) ← rdNat r3
  let (c, r5) ← rdNat r4
  pure (⟨⟨a, b⟩, p, t, c⟩, r5)

def rdAddress (inp : List Nat) : Option (Address × List Nat) := do
  let (a, r1) ← rdNat inp
  let (b, r2) ← rdNat r1
  let (m, r3) ← rdMsgId r2
  pure (⟨⟨a, b⟩, m⟩, r3)

def rdOptAddress (inp : List Nat) : Option (Option Address × List Nat) := do
  let (tag, r) ← rdNat inp
  if tag = 1 then
    let (a, r') ← rdAddress r
    pure (some a, r')
  else pure (none, r)

def rdDuration (inp : List Nat) : Option (PermissionDuration × List Nat) := do
  let (tag, r) ← rdNat inp
  if tag = 1 then
    let (n, r') ← rdNat r
    pure (.untilSequence n, r')
  else pure (.perpetual, r)

def rdPerm (inp : List Nat) : Option (Permissioned × List Nat) := do
  let (tag, r) ← rdNat inp
  let (i, r1) ← rdNat r
  if tag = 0 then pure (.read i, r1)
  else if tag = 1 then
    let (d, r2) ← rdDuration r1
    pure (.readWrite i d, r2)
  else if tag = 2 then pure (.admin i, r1)
  else none

/-- The snapshot-store loop of `ContentUnwrap<State>`: read and insert `n`
(address, snapshot) pairs. -/
def unwrapSpongosLoop : Nat → State → List Nat → Option (State × List Nat)
  | 0, st, inp => some (st, inp)
  | n + 1, st, inp => do
    let (addr, r1) ← rdMsgId inp
    let (sp, r2) ← rdNat r1
    unwrapSpongosLoop n
      { st with spongos_store := AList.insert st.spongos_store addr sp } r2

/-- The per-branch cursor loop of `ContentUnwrap<State>`: read and
`insert_cursor` `n` (permission, cursor) pairs. -/
def unwrapCursorLoop (t : Topic) : Nat → State → List Nat → Option (State × List Nat)
  | 0, st, inp => some (st, inp)
  | n + 1, st, inp => do
    let (p, r1) ← rdPerm inp
    let (c, r2) ← rdNat r1
    unwrapCursorLoop t n
      { st with cursor_store := CursorStore.insertCursor st.cursor_store t p c } r2

/-- The topics loop of `ContentUnwrap<State>`: per topic, record the topic,
set the latest link (creating the branch), then replay its cursors. -/
def unwrapTopicsLoop : Nat → State → List Nat → Option (State × List Nat)
  | 0, st, inp => some (st, inp)
  | n + 1, st, inp => do
    let (t, r1) ← rdNat inp
    let (link, r2) ← rdMsgId r1
    let st1 : State :=
      { st with
          topics := insertSet st.topics t
          cursor_store := CursorStore.setLatestLink st.cursor_store t link }
    let (k, r3) ← rdNat r2
    let (st2, r4) ← unwrapCursorLoop t k st1 r3
    unwrapTopicsLoop n st2 r4

/-- The subscriber loop of `ContentUnwrap<State>`. -/
def unwrapSubsLoop : Nat → State → List Nat → Option (State × List Nat)
  | 0, st, inp => some (st, inp)
  | n + 1, st, inp => do
    let (i, r1) ← rdNat inp
    unwrapSubsLoop n { st with subscribers := insertSet st.subscribers i } r1

/-- The PSK loop of `ContentUnwrap<State>`. -/
def unwrapPskLoop : Nat → State → List Nat → Option (State × List Nat)
  | 0, st, inp => some (st, inp)
  | n + 1, st, inp => do
    let (k, r1) ← rdNat inp
    let (v, r2) ← rdNat r1
    unwrapPskLoop n { st with psk_store := AList.insert st.psk_store k v } r2

/-- `ContentUnwrap<State>::unwrap`: rebuild a state from the default by
reading every section in order. -/
def deserializeState (inp : List Nat) : Option (State × List Nat) :=
  match rdOptNat inp with
  | none => none
  | some (uid, r1) =>
  match rdOptAddress r1 with
  | none => none
  | some (sa, r2) =>
  match rdOptNat r2 with
  | none => none
  | some (auth, r3) =>
  match rdNat r3 with
  | none => none
  | some (bb, r4) =>
  let st0 : State :=
    { State.dflt with
        user_id := uid
        stream_address := sa
        author_identifier := auth
        base_branch := bb }
  match rdNat r4 with
  | none => none
  | some (n1, r5) =>
  match unwrapSpongosLoop n1 st0 r5 with
  | none => none
  | some (st1, r6) =>
  match rdNat r6 with
  | none => none
  | some (n2, r7) =>
  match unwrapTopicsLoop n2 st1 r7 with
  | none => none
  | some (st2, r8) =>
  match rdNat r8 with
  | none => none
  | some (n3, r9) =>
  match unwrapSubsLoop n3 st2 r9 with
  | none => none
  | some (st3, r10) =>
  match rdNat r10 with
  | none => none
  | some (n4, r11) =>
  match unwrapPskLoop n4 st3 r11 with
  | none => none
  | some (st4, r12) =>
  match rdNat r12 with
  | none => none
  | some (leanByte, r13) =>
  some ({ st4 with lean := leanByte == 1 }, r13)

/-- Modelled from the spec: the 32-byte key the sponge RNG derives from the
password is collision-resistant in the password; modelled as the injective
identity embedding. -/
def deriveKey (pwd : Nat) : Nat := pwd

/-- The backup blob: leading MAC (squeeze after absorbing the derived key into
the zero sponge), masked state payload, and final MAC over the absorbed key
and payload. The field widths of the real wire format make this framing
recoverable, so it is kept structural here. -/
structure Backup where
  macKey : Nat
  payload : List Nat
  macFinal : Nat × List Nat
deriving DecidableEq, Repr

inductive RestoreError where
  | macMismatch : RestoreError
  | parseFailure : RestoreError
deriving DecidableEq, Repr

/-- `User::backup` over the state. -/
def backupState (pwd : Nat) (s : State) : Backup :=
  ⟨deriveKey pwd, serializeState s, (deriveKey pwd, serializeState s)⟩

/-- `User::restore` over the state: recompute the key, check the leading MAC
(mismatch is fatal), unwrap, check the final MAC. -/
def restoreState (b : Backup) (pwd : Nat) : Except RestoreError State :=
  let key := deriveKey pwd
  if b.macKey ≠ key then .error .macMismatch
  else
    match deserializeState b.payload with
    | none => .error .parseFailure
    | some (st, _rest) =>
      if b.macFinal ≠ (key, b.payload) then .error .macMismatch
      else .ok st

/-- `User::backup`. -/
def User.backup {τ : Type} (u : User τ) (pwd : Nat) : Backup := backupState pwd u.state

/-- `User::restore`: rebuild a user over the supplied transport. -/
def User.restore {τ : Type} (b : Backup) (pwd : Nat) (transport : τ) :
    Except RestoreError (User τ) :=
  (restoreState b pwd).map (fun st => ⟨transport, st⟩)

/-- The serializable-state invariant of a user: duplicate-free stores, and the
known topics are exactly the cursor-store branches in order (both are hash
collections in the source, where the order is unobservable). -/
def State.WF (s : State) : Prop :=
  (s.spongos_store.map (·.1)).Nodup ∧
  (s.psk_store.map (·.1)).Nodup ∧
  s.subscribers.Nodup ∧
  s.topics.Nodup ∧
  s.cursor_store.map (·.1) = s.topics ∧
  (∀ e ∈ s.cursor_store, ((e.2.cursors).map (·.1.identifier)).Nodup)

/-! ## Concrete fixtures for the per-claim evaluations -/

def annMsgId : MsgId := MsgId.gen ⟨0, 0⟩ 0 0 1

/-- A cursor store with the identifier 0 tracked in two branches under
different permissions. -/
def csC4 : CursorStore :=
  [(0, { cursors := [(.readWrite 0 .perpetual, 5)], latestLink := annMsgId }),
   (1, { cursors := [(.read 0, 7)], latestLink := annMsgId })]

def branchC3 : InnerCursorStore :=
  { cursors := [(.readWrite 0 .perpetual, 5)], latestLink := annMsgId }

/-- A subscriber tracking a stream: author 0 (admin), self 1 (read-write,
cursor 5) on the base branch 0. -/
def stC7 : State where
  user_id := some 1
  stream_address := some ⟨⟨0, 0⟩, annMsgId⟩
  author_identifier := some 0
  cursor_store :=
    [(0, ⟨[(.admin 0, 1), (.readWrite 1 .perpetual, 5)], annMsgId⟩)]
  psk_store := []
  subscribers := []
  spongos_store := [(annMsgId, 7)]
  base_branch := 0
  lean := false
  topics := [0]

def stC5 : State := { stC7 with user_id := none }

def addrC5 : Address := ⟨⟨0, 0⟩, MsgId.gen ⟨0, 0⟩ 1 0 9⟩

def hdrC5 : HDF where
  sequence := 9
  publisher := 1
  topicHash := 0
  linkedMsgAddress := some (MsgId.gen ⟨0, 0⟩ 1 0 8)

/-- An author state: own identity 0, admin of the base branch 0 at cursor 1. -/
def stC6 : State where
  user_id := some 0
  stream_address := some ⟨⟨0, 0⟩, annMsgId⟩
  author_identifier := some 0
  cursor_store := [(0, ⟨[(.admin 0, 1)], annMsgId⟩)]
  psk_store := []
  subscribers := []
  spongos_store := [(annMsgId, 7)]
  base_branch := 0
  lean := false
  topics := [0]

/-- A transport that already holds a message at the address the branch
announcement of `stC6` will be sent to. -/
def trC6 : Transport := [(⟨⟨0, 0⟩, MsgId.gen ⟨0, 0⟩ 0 0 2⟩, [9])]

def stC8 : State :=
  { stC7 with
      lean := true
      spongos_store := [(annMsgId, 7), (MsgId.gen ⟨0, 0⟩ 1 0 2, 8)] }

/-- The branch-uniqueness invariant is decidable, by checking the branch the
topic resolves to. -/
instance (cs : CursorStore) (t : Topic) : Decidable (CursorStore.BranchNodupIds cs t) :=
  match h : AList.lookup cs t with
  | none => isTrue (fun b hb => absurd (h.symm.trans hb) (by simp))
  | some b0 =>
    if hn : (b0.cursors.map (·.1.identifier)).Nodup then
      isTrue (fun b hb => by
        rw [h] at hb
        injection hb with hh
        exact hh ▸ hn)
    else isFalse (fun hall => hn (hall b0 h))

instance (s : State) : Decidable (State.WF s) := by
  unfold State.WF
  infer_instance

/-- A two-branch author-side state with a subscriber list, a PSK and lean mode
on, used for the backup round-trip evaluation. -/
def stC1 : State where
  user_id := some 1
  stream_address := some ⟨⟨0, 0⟩, annMsgId⟩
  author_identifier := some 0
  cursor_store :=
    [(0, ⟨[(.admin 0, 2), (.readWrite 1 .perpetual, 7)], annMsgId⟩),
     (5, ⟨[(.read 3, 1)], MsgId.gen ⟨0, 0⟩ 0 5 1⟩)]
  psk_store := [(4, 9)]
  subscribers := [1, 3]
  spongos_store := [(annMsgId, 7), (MsgId.gen ⟨0, 0⟩ 0 5 1, 8)]
  base_branch := 0
  lean := true
  topics := [0, 5]


/-- A user tracking a branch with three publishers: author 0 (admin), self 1
(read-write, cursor 7), 2 (read-write, cursor 4). -/
def stC2 : State where
  user_id := some 1
  stream_address := some ⟨⟨0, 0⟩, annMsgId⟩
  author_identifier := some 0
  cursor_store :=
    [(0, ⟨[(.admin 0, 2), (.readWrite 1 .perpetual, 7), (.readWrite 2 .perpetual, 4)],
      annMsgId⟩)]
  psk_store := []
  subscribers := []
  spongos_store := [(annMsgId, 7)]
  base_branch := 0
  lean := false
  topics := [0]

def addrC2 : Address := ⟨⟨0, 0⟩, MsgId.gen ⟨0, 0⟩ 0 0 3⟩

def hdrC2 : HDF where
  sequence := 3
  publisher := 0
  topicHash := 0
  linkedMsgAddress := some annMsgId

def subsC2 : List Permissioned := [.readWrite 1 (.untilSequence 4)]

/-! ## Lemma development -/

namespace AList

variable {κ : Type} {α : Type} [DecidableEq κ]

@[simp] theorem lookup_nil (k : κ) : lookup ([] : List (κ × α)) k = none := rfl

theorem lookup_cons (e : κ × α) (l : List (κ × α)) (k : κ) :
    lookup (e :: l) k = if e.1 = k then some e.2 else lookup l k := by
  by_cases h : e.1 = k <;> simp [lookup, List.find?_cons, h]

theorem lookup_append (l₁ l₂ : List (κ × α)) (k : κ) :
    lookup (l₁ ++ l₂) k = ((lookup l₁ k).or (lookup l₂ k)) := by
  induction l₁ with
  | nil => simp [lookup]
  | cons e t ih =>
    by_cases h : e.1 = k <;> simp [lookup_cons, h, ih]

theorem lookup_mapVal (l : List (κ × α)) (f : κ → α → α) (k : κ) :
    lookup (l.map (fun e => (e.1, f e.1 e.2))) k = (lookup l k).map (f k) := by
  induction l with
  | nil => simp [lookup]
  | cons e t ih =>
    by_cases h : e.1 = k
    · subst h; simp [lookup_cons]
    · simp [lookup_cons, h, ih]

theorem lookup_eq_none_of_not_any (l : List (κ × α)) (k : κ)
    (h : l.any (fun e => decide (e.1 = k)) = false) : lookup l k = none := by
  induction l with
  | nil => rfl
  | cons e t ih =>
    rw [List.any_cons, Bool.or_eq_false_iff] at h
    have h1 : e.1 ≠ k := of_decide_eq_false h.1
    rw [lookup_cons, if_neg h1]
    exact ih h.2

theorem any_of_lookup_some (l : List (κ × α)) (k : κ) (v : α)
    (h : lookup l k = some v) : l.any (fun e => decide (e.1 = k)) = true := by
  cases hany : l.any (fun e => decide (e.1 = k)) with
  | true => rfl
  | false =>
    rw [lookup_eq_none_of_not_any l k hany] at h
    exact Option.noConfusion h

theorem lookup_insert_self (l : List (κ × α)) (k : κ) (v : α) :
    lookup (insert l k v) k = some v := by
  unfold insert
  by_cases hany : l.any (fun e => decide (e.1 = k)) = true
  · rw [if_pos hany]
    induction l with
    | nil => simp at hany
    | cons e t ih =>
      rw [List.map_cons, lookup_cons]
      by_cases h : e.1 = k
      · rw [if_pos h]
        simp
      · rw [if_neg h, if_neg h]
        rw [List.any_cons] at hany
        have : (decide (e.1 = k)) = false := decide_eq_false h
        rw [this, Bool.false_or] at hany
        exact ih hany
  · rw [if_neg hany, lookup_append,
      lookup_eq_none_of_not_any l k (Bool.eq_false_iff.mpr hany ▸ rfl)]
    rw [Option.none_or, lookup_cons, if_pos rfl]

theorem lookup_map_replace (l : List (κ × α)) (k k' : κ) (v : α) (h : k' ≠ k) :
    lookup (l.map (fun e => if e.1 = k then (k, v) else e)) k' = lookup l k' := by
  induction l with
  | nil => rfl
  | cons e t ih =>
    rw [List.map_cons, lookup_cons, lookup_cons]
    by_cases he : e.1 = k
    · have he' : e.1 ≠ k' := fun hk => h (hk.symm.trans he)
      rw [if_pos he, if_neg he']
      have hkv : ((k, v) : κ × α).1 ≠ k' := fun hk => h hk.symm
      rw [if_neg hkv, ih]
    · rw [if_neg he]
      by_cases he2 : e.1 = k'
      · rw [if_pos he2, if_pos he2]
      · rw [if_neg he2, if_neg he2, ih]

theorem lookup_insert_ne (l : List (κ × α)) (k k' : κ) (v : α) (h : k' ≠ k) :
    lookup (insert l k v) k' = lookup l k' := by
  unfold insert
  by_cases hany : l.any (fun e => decide (e.1 = k)) = true
  · rw [if_pos hany]
    exact lookup_map_replace l k k' v h
  · rw [if_neg hany, lookup_append]
    have hsingle : lookup [(k, v)] k' = none := by
      rw [lookup_cons, if_neg (fun hk : ((k, v) : κ × α).1 = k' => h hk.symm)]
      rfl
    rw [hsingle, Option.or_none]

theorem lookup_erase_self (l : List (κ × α)) (k : κ) :
    lookup (erase l k) k = none := by
  induction l with
  | nil => rfl
  | cons e t ih =>
    simp only [erase] at ih ⊢
    by_cases he : e.1 = k
    · rw [List.filter_cons_of_neg (by simpa using he)]
      exact ih
    · rw [List.filter_cons_of_pos (by simpa using he), lookup_cons, if_neg he]
      exact ih

theorem lookup_erase_ne (l : List (κ × α)) (k k' : κ) (h : k' ≠ k) :
    lookup (erase l k) k' = lookup l k' := by
  induction l with
  | nil => rfl
  | cons e t ih =>
    simp only [erase] at ih ⊢
    by_cases he : e.1 = k
    · have he' : e.1 ≠ k' := fun hk => h (hk.symm.trans he)
      rw [List.filter_cons_of_neg (by simpa using he), lookup_cons, if_neg he']
      exact ih
    · rw [List.filter_cons_of_pos (by simpa using he), lookup_cons, lookup_cons]
      by_cases he2 : e.1 = k'
      · rw [if_pos he2, if_pos he2]
      · rw [if_neg he2, if_neg he2]
        exact ih

theorem insert_of_not_any (l : List (κ × α)) (k : κ) (v : α)
    (h : l.any (fun e => decide (e.1 = k)) = false) :
    insert l k v = l ++ [(k, v)] := by
  simp [insert, h]

theorem keys_insert (l : List (κ × α)) (k : κ) (v : α)
    (h : l.any (fun e => decide (e.1 = k)) = true) :
    (insert l k v).map (·.1) = l.map (·.1) := by
  unfold insert
  rw [if_pos h, List.map_map]
  apply List.map_congr_left
  intro e _
  by_cases he : e.1 = k <;> simp [he]


end AList

/-! ### List-level search lemmas -/

section FindLemmas

variable {α : Type}

theorem find?_append_aux (p : α → Bool) (l₁ l₂ : List α) :
    (l₁ ++ l₂).find? p = ((l₁.find? p).or (l₂.find? p)) := by
  induction l₁ with
  | nil => simp
  | cons a t ih =>
    rw [List.cons_append]
    cases hp : p a with
    | true =>
      rw [List.find?_cons_of_pos _ hp, List.find?_cons_of_pos _ hp]
      rfl
    | false =>
      have hp' : ¬ p a := by simp [hp]
      rw [List.find?_cons_of_neg _ hp', List.find?_cons_of_neg _ hp', ih]

theorem find?_eraseP_disjoint (p q : α → Bool) (l : List α)
    (h : ∀ x, q x = true → p x = false) :
    (l.eraseP q).find? p = l.find? p := by
  induction l with
  | nil => rfl
  | cons a t ih =>
    cases hq : q a with
    | true =>
      rw [List.eraseP_cons_of_pos hq, List.find?_cons_of_neg _ (by simp [h a hq])]
    | false =>
      rw [List.eraseP_cons_of_neg (by simp [hq])]
      cases hp : p a with
      | true => rw [List.find?_cons_of_pos _ hp, List.find?_cons_of_pos _ hp]
      | false =>
        have hp' : ¬ p a := by simp [hp]
        rw [List.find?_cons_of_neg _ hp', List.find?_cons_of_neg _ hp']
        exact ih

end FindLemmas

namespace CursorListLemmas

/-- First id-match after erasing its key: with at most one entry per
identifier, no entry for the identifier remains. -/
theorem find_erase_key_none (l : List (Permissioned × Nat)) (id : Identifier)
    (q : Permissioned) (c0 : Nat)
    (hnd : (l.map (·.1.identifier)).Nodup)
    (h : l.find? (fun e => decide (e.1.identifier = id)) = some (q, c0)) :
    (l.eraseP (fun x => decide (x.1 = q))).find? (fun e => decide (e.1.identifier = id)) = none := by
  induction l with
  | nil => simp at h
  | cons a t ih =>
    rw [List.map_cons, List.nodup_cons] at hnd
    by_cases hid : a.1.identifier = id
    · rw [List.find?_cons_of_pos _ (by simpa using hid)] at h
      have ha : a = (q, c0) := by injection h
      have hpa : (fun x : Permissioned × Nat => decide (x.1 = q)) a = true := by
        rw [ha]; simp
      have herase : List.eraseP (fun x => decide (x.1 = q)) (a :: t) = t :=
        List.eraseP_cons_of_pos hpa
      rw [herase, List.find?_eq_none]
      intro x hx hpx
      have hx1 : x.1.identifier = id := of_decide_eq_true hpx
      have hxm : id ∈ t.map (·.1.identifier) :=
        hx1 ▸ List.mem_map_of_mem (·.1.identifier) hx
      exact (hid ▸ hnd.1) hxm
    · rw [List.find?_cons_of_neg _ (by simpa using hid)] at h
      have hq : q.identifier = id := by
        have h2 := List.find?_some h
        simpa using h2
      have hane : ¬ ((fun x : Permissioned × Nat => decide (x.1 = q)) a = true) := by
        simp only [decide_eq_true_eq]
        intro hc
        exact hid (by rw [hc, hq])
      have herase : List.eraseP (fun x => decide (x.1 = q)) (a :: t) =
          a :: List.eraseP (fun x => decide (x.1 = q)) t :=
        List.eraseP_cons_of_neg hane
      rw [herase, List.find?_cons_of_neg _ (by simpa using hid)]
      exact ih hnd.2 h

/-- No entry for the identifier means no entry with a key carrying it. -/
theorem not_any_key_of_find_none (l : List (Permissioned × Nat)) (p : Permissioned)
    (h : l.find? (fun e => decide (e.1.identifier = p.identifier)) = none) :
    l.any (fun e => decide (e.1 = p)) = false := by
  rw [List.find?_eq_none] at h
  rw [List.any_eq_false]
  intro x hx hc
  have hx1 : x.1 = p := by simpa using hc
  exact h x hx (by simp [hx1])

/-- Inserting a fresh identifier appends, and the new entry is found. -/
theorem find_insert_self_of_none (l : List (Permissioned × Nat)) (p : Permissioned) (c : Nat)
    (h : l.find? (fun e => decide (e.1.identifier = p.identifier)) = none) :
    (AList.insert l p c).find? (fun e => decide (e.1.identifier = p.identifier)) = some (p, c) := by
  rw [AList.insert_of_not_any l p c (not_any_key_of_find_none l p h), find?_append_aux, h,
    Option.none_or, List.find?_cons_of_pos _ (by simp)]

/-- Replacing the value at a key that is the first id-match. -/
theorem find_map_replace_self (l : List (Permissioned × Nat)) (p : Permissioned) (c c0 : Nat)
    (h : l.find? (fun e => decide (e.1.identifier = p.identifier)) = some (p, c0)) :
    (l.map (fun e => if e.1 = p then (p, c) else e)).find?
      (fun e => decide (e.1.identifier = p.identifier)) = some (p, c) := by
  induction l with
  | nil => simp at h
  | cons a t ih =>
    by_cases hid : a.1.identifier = p.identifier
    · rw [List.find?_cons_of_pos _ (by simpa using hid)] at h
      have ha : a = (p, c0) := by injection h
      rw [List.map_cons, ha, if_pos rfl, List.find?_cons_of_pos _ (by simp)]
    · rw [List.find?_cons_of_neg _ (by simpa using hid)] at h
      have hane : a.1 ≠ p := fun hc => hid (by rw [hc])
      rw [List.map_cons, if_neg hane, List.find?_cons_of_neg _ (by simpa using hid)]
      exact ih h

/-- Tracked identifier with identical or re-bound key: the insert is found. -/
theorem find_insert_self_of_some (l : List (Permissioned × Nat)) (p : Permissioned) (c c0 : Nat)
    (h : l.find? (fun e => decide (e.1.identifier = p.identifier)) = some (p, c0)) :
    (AList.insert l p c).find? (fun e => decide (e.1.identifier = p.identifier)) = some (p, c) := by
  have hmem : ((p, c0) : Permissioned × Nat) ∈ l := List.mem_of_find?_eq_some h
  have hany : l.any (fun e => decide (e.1 = p)) = true := by
    rw [List.any_eq_true]
    exact ⟨(p, c0), hmem, by simp⟩
  unfold AList.insert
  rw [if_pos hany]
  exact find_map_replace_self l p c c0 h

/-- Replacing the value at a key does not change the first match for a
different identifier. -/
theorem find_map_replace_other (l : List (Permissioned × Nat)) (p : Permissioned) (c : Nat)
    (j : Identifier) (hj : j ≠ p.identifier) :
    (l.map (fun e => if e.1 = p then (p, c) else e)).find? (fun e => decide (e.1.identifier = j)) =
      l.find? (fun e => decide (e.1.identifier = j)) := by
  induction l with
  | nil => rfl
  | cons a t ih =>
    rw [List.map_cons]
    by_cases hk : a.1 = p
    · have h2 : ¬ a.1.identifier = j := by rw [hk]; exact fun hc => hj hc.symm
      have h3 : ¬ ((p, c) : Permissioned × Nat).1.identifier = j := fun hc => hj hc.symm
      rw [if_pos hk, List.find?_cons_of_neg _ (by simpa using h3),
        List.find?_cons_of_neg _ (by simpa using h2), ih]
    · rw [if_neg hk]
      by_cases hid : a.1.identifier = j
      · rw [List.find?_cons_of_pos _ (by simpa using hid),
          List.find?_cons_of_pos _ (by simpa using hid)]
      · rw [List.find?_cons_of_neg _ (by simpa using hid),
          List.find?_cons_of_neg _ (by simpa using hid), ih]

/-- Inserting a key does not change the first match for another identifier. -/
theorem find_insert_other (l : List (Permissioned × Nat)) (p : Permissioned) (c : Nat)
    (j : Identifier) (hj : j ≠ p.identifier) :
    (AList.insert l p c).find? (fun e => decide (e.1.identifier = j)) =
      l.find? (fun e => decide (e.1.identifier = j)) := by
  unfold AList.insert
  by_cases hany : l.any (fun e => decide (e.1 = p)) = true
  · rw [if_pos hany]
    exact find_map_replace_other l p c j hj
  · rw [if_neg hany, find?_append_aux]
    have hone : ([((p, c) : Permissioned × Nat)].find? (fun e => decide (e.1.identifier = j))) = none := by
      rw [List.find?_eq_none]
      intro x hx
      rw [List.mem_singleton] at hx
      subst hx
      simp only [decide_eq_true_eq]
      exact fun hc => hj hc.symm
    rw [hone, Option.or_none]

/-- Membership plus the uniqueness invariant pins down the first match. -/
theorem find_of_mem_nodup (l : List (Permissioned × Nat)) (e : Permissioned × Nat)
    (hmem : e ∈ l) (hnd : (l.map (·.1.identifier)).Nodup) :
    l.find? (fun x => decide (x.1.identifier = e.1.identifier)) = some e := by
  induction l with
  | nil => simp at hmem
  | cons a t ih =>
    rw [List.map_cons, List.nodup_cons] at hnd
    rcases List.mem_cons.mp hmem with rfl | hmem'
    · exact List.find?_cons_of_pos _ (by simp)
    · have hne : ¬ a.1.identifier = e.1.identifier := by
        intro hc
        exact hnd.1 (hc ▸ List.mem_map_of_mem (·.1.identifier) hmem')
      rw [List.find?_cons_of_neg _ (by simpa using hne)]
      exact ih hmem' hnd.2

end CursorListLemmas

/-! ### Cursor-store lemmas -/

namespace CursorStore

open CursorListLemmas

theorem lookup_map_branchVal (cs : CursorStore) (t : Topic)
    (g : InnerCursorStore → InnerCursorStore) (t' : Topic) :
    AList.lookup (cs.map (fun e => (e.1, if e.1 = t then g e.2 else e.2))) t' =
      (AList.lookup cs t').map (fun b => if t' = t then g b else b) := by
  induction cs with
  | nil => rfl
  | cons e l ih =>
    rw [List.map_cons, AList.lookup_cons, AList.lookup_cons]
    by_cases he : e.1 = t'
    · rw [if_pos he, if_pos he, he, Option.map_some']
    · rw [if_neg he, if_neg he, ih]

theorem lookup_remove (cs : CursorStore) (id : Identifier) (t : Topic) :
    AList.lookup (remove cs id) t = (AList.lookup cs t).map (fun b => b.removeId id) := by
  unfold remove
  induction cs with
  | nil => rfl
  | cons e l ih =>
    rw [List.map_cons, AList.lookup_cons, AList.lookup_cons]
    by_cases he : e.1 = t
    · rw [if_pos he, if_pos he, Option.map_some']
    · rw [if_neg he, if_neg he, ih]

theorem lookup_modifyBranch_some (cs : CursorStore) (t : Topic)
    (f : InnerCursorStore → InnerCursorStore) (b : InnerCursorStore)
    (hb : AList.lookup cs t = some b) :
    AList.lookup (modifyBranch cs t f) t = some (f b) := by
  unfold modifyBranch
  rw [if_pos (by rw [hb]; rfl), lookup_map_branchVal, hb, Option.map_some', if_pos rfl]

theorem lookup_modifyBranch_other (cs : CursorStore) (t : Topic)
    (f : InnerCursorStore → InnerCursorStore) (t' : Topic) (ht : t' ≠ t) :
    AList.lookup (modifyBranch cs t f) t' = AList.lookup cs t' := by
  unfold modifyBranch
  by_cases hs : (AList.lookup cs t).isSome
  · rw [if_pos hs, lookup_map_branchVal]
    cases AList.lookup cs t' with
    | none => rfl
    | some b => rw [Option.map_some', if_neg ht]
  · rw [if_neg hs]

theorem entryAt_of_lookup_some (cs : CursorStore) (t : Topic) (id : Identifier)
    (b : InnerCursorStore) (hb : AList.lookup cs t = some b) :
    entryAt cs t id = b.entryFor id := by
  unfold entryAt
  rw [hb]
  rfl

theorem entryAt_of_lookup_none (cs : CursorStore) (t : Topic) (id : Identifier)
    (hb : AList.lookup cs t = none) :
    entryAt cs t id = none := by
  unfold entryAt
  rw [hb]
  rfl

theorem getPermission_eq_entry (cs : CursorStore) (t : Topic) (id : Identifier) :
    getPermission cs t id = (entryAt cs t id).map (·.1) := by
  unfold getPermission entryAt
  cases AList.lookup cs t <;> rfl

theorem getCursor_eq_entry (cs : CursorStore) (t : Topic) (id : Identifier) :
    getCursor cs t id = (entryAt cs t id).map (·.2) := by
  unfold getCursor entryAt
  cases AList.lookup cs t <;> rfl

/-- Unfolding equation for `insert_cursor`: untracked identifier. -/
theorem insertCursor_none_case (cs : CursorStore) (t : Topic) (p : Permissioned) (c : Nat)
    (h : getPermission cs t p.identifier = none) :
    insertCursor cs t p c =
      modifyBranch cs t (fun b => { b with cursors := AList.insert b.cursors p c }) := by
  unfold insertCursor
  rw [h]

/-- Unfolding equation for `insert_cursor`: identifier tracked under the same
permission. -/
theorem insertCursor_same_case (cs : CursorStore) (t : Topic) (p : Permissioned) (c : Nat)
    (h : getPermission cs t p.identifier = some p) :
    insertCursor cs t p c =
      modifyBranch cs t (fun b => { b with cursors := AList.insert b.cursors p c }) := by
  unfold insertCursor
  rw [h]
  simp

/-- Unfolding equation for `insert_cursor`: identifier tracked under a
different permission (remove everywhere, keep the old cursor). -/
theorem insertCursor_diff_case (cs : CursorStore) (t : Topic) (p : Permissioned) (c : Nat)
    (q : Permissioned) (h : getPermission cs t p.identifier = some q) (hqp : q ≠ p) :
    insertCursor cs t p c =
      modifyBranch (remove cs p.identifier) t
        (fun b => { b with
          cursors := AList.insert b.cursors p ((getCursor cs t p.identifier).getD 0) }) := by
  unfold insertCursor
  rw [h]
  simp [hqp]

/-- The effect of `insert_cursor` on the entry for the inserted identifier in
the target branch: a fresh identifier is stored at the argument cursor, an
identifier tracked under the same permission is stored at the argument cursor,
and an identifier tracked under a different permission is re-bound to the new
permission at the previously stored cursor. -/
theorem entryAt_insertCursor_self (cs : CursorStore) (t : Topic) (p : Permissioned) (c : Nat)
    (hnd : BranchNodupIds cs t) (b : InnerCursorStore) (hb : AList.lookup cs t = some b) :
    entryAt (insertCursor cs t p c) t p.identifier =
      some (p, match entryAt cs t p.identifier with
               | none => c
               | some (q, c0) => if q = p then c else c0) := by
  have hE : entryAt cs t p.identifier = b.entryFor p.identifier :=
    entryAt_of_lookup_some cs t p.identifier b hb
  have hbn : (b.cursors.map (·.1.identifier)).Nodup := hnd b hb
  cases hEf : b.entryFor p.identifier with
  | none =>
    have hgp : getPermission cs t p.identifier = none := by
      rw [getPermission_eq_entry, hE, hEf]
      rfl
    rw [insertCursor_none_case cs t p c hgp, hE, hEf]
    rw [entryAt_of_lookup_some _ t p.identifier _
      (lookup_modifyBranch_some cs t _ b hb)]
    exact find_insert_self_of_none b.cursors p c hEf
  | some e =>
    obtain ⟨q, c0⟩ := e
    have hgp : getPermission cs t p.identifier = some q := by
      rw [getPermission_eq_entry, hE, hEf]
      rfl
    have hgc : getCursor cs t p.identifier = some c0 := by
      rw [getCursor_eq_entry, hE, hEf]
      rfl
    by_cases hqp : q = p
    · subst hqp
      have hlhs : entryAt (insertCursor cs t q c) t q.identifier = some (q, c) := by
        rw [insertCursor_same_case cs t q c hgp,
          entryAt_of_lookup_some _ t q.identifier _
            (lookup_modifyBranch_some cs t _ b hb)]
        exact find_insert_self_of_some b.cursors q c c0 hEf
      rw [hlhs, hE, hEf]
      simp
    · have hrem : AList.lookup (remove cs p.identifier) t = some (b.removeId p.identifier) := by
        rw [lookup_remove, hb, Option.map_some']
      have hrm : (b.removeId p.identifier).cursors = b.cursors.eraseP (fun x => decide (x.1 = q)) := by
        unfold InnerCursorStore.removeId
        have hEf' : List.find? (fun e => decide (e.1.identifier = p.identifier)) b.cursors
            = some (q, c0) := hEf
        rw [hEf']
      have hlhs : entryAt (insertCursor cs t p c) t p.identifier = some (p, c0) := by
        rw [insertCursor_diff_case cs t p c q hgp hqp,
          entryAt_of_lookup_some _ t p.identifier _
            (lookup_modifyBranch_some _ t _ _ hrem), hrm, hgc, Option.getD_some]
        have hnone := find_erase_key_none b.cursors p.identifier q c0 hbn hEf
        exact find_insert_self_of_none (b.cursors.eraseP (fun x => decide (x.1 = q))) p c0 hnone
      rw [hlhs, hE, hEf]
      simp [hqp]

/-- `insert_cursor` leaves entries for other identifiers of the target branch
unchanged. -/
theorem entryAt_insertCursor_other (cs : CursorStore) (t : Topic) (p : Permissioned) (c : Nat)
    (j : Identifier) (hj : j ≠ p.identifier) :
    entryAt (insertCursor cs t p c) t j = entryAt cs t j := by
  cases hb : AList.lookup cs t with
  | none =>
    have hgp : getPermission cs t p.identifier = none := by
      unfold getPermission
      rw [hb]
      rfl
    rw [insertCursor_none_case cs t p c hgp]
    unfold modifyBranch
    rw [if_neg (by rw [hb]; simp)]
  | some b =>
    have hE : entryAt cs t p.identifier = b.entryFor p.identifier :=
      entryAt_of_lookup_some cs t p.identifier b hb
    cases hEf : b.entryFor p.identifier with
    | none =>
      have hgp : getPermission cs t p.identifier = none := by
        rw [getPermission_eq_entry, hE, hEf]
        rfl
      rw [insertCursor_none_case cs t p c hgp]
      rw [entryAt_of_lookup_some _ t j _ (lookup_modifyBranch_some cs t _ b hb),
        entryAt_of_lookup_some cs t j b hb]
      exact find_insert_other b.cursors p c j hj
    | some e =>
      obtain ⟨q, c0⟩ := e
      have hgp : getPermission cs t p.identifier = some q := by
        rw [getPermission_eq_entry, hE, hEf]
        rfl
      have hqid : q.identifier = p.identifier := by
        have := List.find?_some hEf
        simpa using this
      by_cases hqp : q = p
      · subst hqp
        rw [insertCursor_same_case cs t q c hgp]
        rw [entryAt_of_lookup_some _ t j _ (lookup_modifyBranch_some cs t _ b hb),
          entryAt_of_lookup_some cs t j b hb]
        exact find_insert_other b.cursors q c j hj
      · rw [insertCursor_diff_case cs t p c q hgp hqp]
        have hrem : AList.lookup (remove cs p.identifier) t = some (b.removeId p.identifier) := by
          rw [lookup_remove, hb, Option.map_some']
        rw [entryAt_of_lookup_some _ t j _ (lookup_modifyBranch_some _ t _ _ hrem),
          entryAt_of_lookup_some cs t j b hb]
        have hrm : (b.removeId p.identifier).cursors = b.cursors.eraseP (fun x => decide (x.1 = q)) := by
          unfold InnerCursorStore.removeId
          have hEf' : List.find? (fun e => decide (e.1.identifier = p.identifier)) b.cursors
              = some (q, c0) := hEf
          rw [hEf']
        show (AList.insert (b.removeId p.identifier).cursors p
            ((cs.getCursor t p.identifier).getD 0)).find? (fun e => decide (e.1.identifier = j)) =
          b.cursors.find? (fun e => decide (e.1.identifier = j))
        rw [find_insert_other _ p _ j hj, hrm]
        apply find?_eraseP_disjoint
        intro x hx
        have hx1 : x.1 = q := by simpa using hx
        have hxne : ¬ x.1.identifier = j := by
          rw [hx1, hqid]
          exact fun hc => hj hc.symm
        simpa using hxne

theorem entryAt_modifyBranch_other (cs : CursorStore) (t : Topic)
    (f : InnerCursorStore → InnerCursorStore) (t' : Topic) (j : Identifier) (ht : t' ≠ t) :
    entryAt (modifyBranch cs t f) t' j = entryAt cs t' j := by
  unfold entryAt
  rw [lookup_modifyBranch_other cs t f t' ht]

theorem entryFor_removeId_self (b : InnerCursorStore) (id : Identifier)
    (hnd : (b.cursors.map (·.1.identifier)).Nodup) :
    (b.removeId id).entryFor id = none := by
  unfold InnerCursorStore.removeId
  cases hf : b.cursors.find? (fun e => decide (e.1.identifier = id)) with
  | none => exact hf
  | some e =>
    obtain ⟨q, c0⟩ := e
    show (b.cursors.eraseP (fun x => decide (x.1 = q))).find?
      (fun e => decide (e.1.identifier = id)) = none
    exact find_erase_key_none b.cursors id q c0 hnd hf

theorem entryFor_removeId_other (b : InnerCursorStore) (id j : Identifier) (hj : j ≠ id) :
    (b.removeId id).entryFor j = b.entryFor j := by
  unfold InnerCursorStore.removeId
  cases hf : b.cursors.find? (fun e => decide (e.1.identifier = id)) with
  | none => rfl
  | some e =>
    obtain ⟨q, c0⟩ := e
    have hq : q.identifier = id := by
      have := List.find?_some hf
      simpa using this
    show (b.cursors.eraseP (fun x => decide (x.1 = q))).find?
      (fun e => decide (e.1.identifier = j)) = b.entryFor j
    apply find?_eraseP_disjoint
    intro x hx
    have hx1 : x.1 = q := by simpa using hx
    have hxne : ¬ x.1.identifier = j := by
      rw [hx1, hq]
      exact fun hc => hj hc.symm
    simpa using hxne

theorem entryAt_remove_other (cs : CursorStore) (id : Identifier) (t : Topic) (j : Identifier)
    (hj : j ≠ id) :
    entryAt (remove cs id) t j = entryAt cs t j := by
  unfold entryAt
  rw [lookup_remove]
  cases AList.lookup cs t with
  | none => rfl
  | some b =>
    rw [Option.map_some']
    exact entryFor_removeId_other b id j hj

theorem entryAt_remove_self (cs : CursorStore) (id : Identifier) (t : Topic)
    (hnd : BranchNodupIds cs t) :
    entryAt (remove cs id) t id = none := by
  unfold entryAt
  rw [lookup_remove]
  cases hb : AList.lookup cs t with
  | none => rfl
  | some b =>
    rw [Option.map_some']
    exact entryFor_removeId_self b id (hnd b hb)

/-- `insert_cursor` on topic `t`: branches of other topics keep their entries
for identifiers other than the inserted one. -/
theorem entryAt_insertCursor_topic_other (cs : CursorStore) (t : Topic) (p : Permissioned)
    (c : Nat) (t' : Topic) (j : Identifier) (ht : t' ≠ t) (hj : j ≠ p.identifier) :
    entryAt (insertCursor cs t p c) t' j = entryAt cs t' j := by
  cases hgp : getPermission cs t p.identifier with
  | none =>
    rw [insertCursor_none_case cs t p c hgp]
    exact entryAt_modifyBranch_other cs t _ t' j ht
  | some q =>
    by_cases hqp : q = p
    · subst hqp
      rw [insertCursor_same_case cs t q c hgp]
      exact entryAt_modifyBranch_other cs t _ t' j ht
    · rw [insertCursor_diff_case cs t p c q hgp hqp,
        entryAt_modifyBranch_other _ t _ t' j ht]
      exact entryAt_remove_other cs p.identifier t' j hj

/-- `insert_cursor` on topic `t` when the branch of `t` holds a different
permission for the identifier: the identifier's entry disappears from every
other branch. -/
theorem entryAt_insertCursor_topic_self_diff (cs : CursorStore) (t : Topic) (p : Permissioned)
    (c : Nat) (t' : Topic) (ht : t' ≠ t) (hnd' : BranchNodupIds cs t')
    (q : Permissioned) (hgp : getPermission cs t p.identifier = some q) (hqp : q ≠ p) :
    entryAt (insertCursor cs t p c) t' p.identifier = none := by
  rw [insertCursor_diff_case cs t p c q hgp hqp,
    entryAt_modifyBranch_other _ t _ t' p.identifier ht]
  exact entryAt_remove_self cs p.identifier t' hnd'

/-- `insert_cursor` on topic `t` when the branch of `t` does not hold a
different permission for the identifier: other branches are untouched. -/
theorem entryAt_insertCursor_topic_self_nodiff (cs : CursorStore) (t : Topic) (p : Permissioned)
    (c : Nat) (t' : Topic) (ht : t' ≠ t)
    (hgp : getPermission cs t p.identifier = none ∨ getPermission cs t p.identifier = some p) :
    entryAt (insertCursor cs t p c) t' p.identifier = entryAt cs t' p.identifier := by
  rcases hgp with hgp | hgp
  · rw [insertCursor_none_case cs t p c hgp]
    exact entryAt_modifyBranch_other cs t _ t' p.identifier ht
  · rw [insertCursor_same_case cs t p c hgp]
    exact entryAt_modifyBranch_other cs t _ t' p.identifier ht

theorem id_not_mem_of_find_none (l : List (Permissioned × Nat)) (id : Identifier)
    (h : l.find? (fun e => decide (e.1.identifier = id)) = none) :
    id ∉ l.map (·.1.identifier) := by
  rw [List.find?_eq_none] at h
  intro hmem
  obtain ⟨x, hx, hxid⟩ := List.mem_map.mp hmem
  exact h x hx (by simp [hxid])

theorem ids_insert_fresh (l : List (Permissioned × Nat)) (p : Permissioned) (c : Nat)
    (h : l.find? (fun e => decide (e.1.identifier = p.identifier)) = none) :
    (AList.insert l p c).map (·.1.identifier) = l.map (·.1.identifier) ++ [p.identifier] := by
  rw [AList.insert_of_not_any l p c (not_any_key_of_find_none l p h), List.map_append]
  rfl

theorem ids_insert_replace (l : List (Permissioned × Nat)) (p : Permissioned) (c : Nat) :
    (l.map (fun e => if e.1 = p then (p, c) else e)).map (·.1.identifier) =
      l.map (·.1.identifier) := by
  rw [List.map_map]
  apply List.map_congr_left
  intro e _
  by_cases he : e.1 = p
  · simp [he]
  · simp [he]

theorem nodup_ids_insert_of_find_none (l : List (Permissioned × Nat)) (p : Permissioned)
    (c : Nat) (hnd : (l.map (·.1.identifier)).Nodup)
    (hf : l.find? (fun e => decide (e.1.identifier = p.identifier)) = none) :
    ((AList.insert l p c).map (·.1.identifier)).Nodup := by
  rw [ids_insert_fresh l p c hf, List.nodup_append]
  refine ⟨hnd, List.nodup_singleton _, ?_⟩
  intro x hx hx1
  have hx1' : x = p.identifier := by simpa using hx1
  subst hx1'
  exact id_not_mem_of_find_none l p.identifier hf hx

theorem nodup_ids_insert_of_find_key (l : List (Permissioned × Nat)) (p : Permissioned)
    (c c0 : Nat) (hnd : (l.map (·.1.identifier)).Nodup)
    (hf : l.find? (fun e => decide (e.1.identifier = p.identifier)) = some (p, c0)) :
    ((AList.insert l p c).map (·.1.identifier)).Nodup := by
  have hmem : ((p, c0) : Permissioned × Nat) ∈ l := List.mem_of_find?_eq_some hf
  have hany : l.any (fun x => decide (x.1 = p)) = true := by
    rw [List.any_eq_true]
    exact ⟨(p, c0), hmem, by simp⟩
  unfold AList.insert
  rw [if_pos hany, ids_insert_replace]
  exact hnd

/-- `insert_cursor` preserves the at-most-one-entry-per-identifier invariant
of the target branch. -/
theorem branchNodup_insertCursor (cs : CursorStore) (t : Topic) (p : Permissioned) (c : Nat)
    (hnd : BranchNodupIds cs t) :
    BranchNodupIds (insertCursor cs t p c) t := by
  intro b' hb'
  cases hb : AList.lookup cs t with
  | none =>
    have hgp : getPermission cs t p.identifier = none := by
      unfold getPermission
      rw [hb]
      rfl
    rw [insertCursor_none_case cs t p c hgp] at hb'
    unfold modifyBranch at hb'
    rw [if_neg (by rw [hb]; simp)] at hb'
    rw [hb] at hb'
    exact Option.noConfusion hb'
  | some b =>
    have hbn : (b.cursors.map (·.1.identifier)).Nodup := hnd b hb
    cases hEf : b.entryFor p.identifier with
    | none =>
      have hgp : getPermission cs t p.identifier = none := by
        rw [getPermission_eq_entry, entryAt_of_lookup_some cs t p.identifier b hb, hEf]
        rfl
      rw [insertCursor_none_case cs t p c hgp,
        lookup_modifyBranch_some cs t _ b hb] at hb'
      obtain rfl : b' = { b with cursors := AList.insert b.cursors p c } := by
        injection hb' with h
        exact h.symm
      exact nodup_ids_insert_of_find_none b.cursors p c hbn hEf
    | some e =>
      obtain ⟨q, c0⟩ := e
      have hgp : getPermission cs t p.identifier = some q := by
        rw [getPermission_eq_entry, entryAt_of_lookup_some cs t p.identifier b hb, hEf]
        rfl
      by_cases hqp : q = p
      · subst hqp
        rw [insertCursor_same_case cs t q c hgp,
          lookup_modifyBranch_some cs t _ b hb] at hb'
        obtain rfl : b' = { b with cursors := AList.insert b.cursors q c } := by
          injection hb' with h
          exact h.symm
        exact nodup_ids_insert_of_find_key b.cursors q c c0 hbn hEf
      · have hrem : AList.lookup (remove cs p.identifier) t = some (b.removeId p.identifier) := by
          rw [lookup_remove, hb, Option.map_some']
        rw [insertCursor_diff_case cs t p c q hgp hqp,
          lookup_modifyBranch_some _ t _ _ hrem] at hb'
        obtain rfl : b' = { b.removeId p.identifier with
            cursors := AList.insert (b.removeId p.identifier).cursors p
              ((getCursor cs t p.identifier).getD 0) } := by
          injection hb' with h
          exact h.symm
        have hrm : (b.removeId p.identifier).cursors =
            b.cursors.eraseP (fun x => decide (x.1 = q)) := by
          unfold InnerCursorStore.removeId
          have hEf' : List.find? (fun e => decide (e.1.identifier = p.identifier)) b.cursors
              = some (q, c0) := hEf
          rw [hEf']
        have hsub : List.Sublist
            ((b.cursors.eraseP (fun x => decide (x.1 = q))).map (·.1.identifier))
            (b.cursors.map (·.1.identifier)) :=
          (List.eraseP_sublist b.cursors).map (·.1.identifier)
        have hnd2 : ((b.cursors.eraseP (fun x => decide (x.1 = q))).map (·.1.identifier)).Nodup :=
          hbn.sublist hsub
        have hnone := find_erase_key_none b.cursors p.identifier q c0 hbn hEf
        show ((AList.insert (b.removeId p.identifier).cursors p
          ((getCursor cs t p.identifier).getD 0)).map (·.1.identifier)).Nodup
        rw [hrm]
        exact nodup_ids_insert_of_find_none _ p _ hnd2 hnone

/-- `insert_cursor` does not create or delete branches. -/
theorem lookup_isSome_insertCursor (cs : CursorStore) (t : Topic) (p : Permissioned) (c : Nat)
    (t' : Topic) :
    (AList.lookup (insertCursor cs t p c) t').isSome = (AList.lookup cs t').isSome := by
  have hmod : ∀ (cs' : CursorStore) (f : InnerCursorStore → InnerCursorStore),
      (AList.lookup (modifyBranch cs' t f) t').isSome = (AList.lookup cs' t').isSome := by
    intro cs' f
    unfold modifyBranch
    by_cases hs : (AList.lookup cs' t).isSome
    · rw [if_pos hs, lookup_map_branchVal]
      cases AList.lookup cs' t' <;> rfl
    · rw [if_neg hs]
  have hrem : ∀ id, (AList.lookup (remove cs id) t').isSome = (AList.lookup cs t').isSome := by
    intro id
    rw [lookup_remove]
    cases AList.lookup cs t' <;> rfl
  cases hgp : getPermission cs t p.identifier with
  | none => rw [insertCursor_none_case cs t p c hgp, hmod]
  | some q =>
    by_cases hqp : q = p
    · subst hqp
      rw [insertCursor_same_case cs t q c hgp, hmod]
    · rw [insertCursor_diff_case cs t p c q hgp hqp, hmod, hrem]

/-- `set_latest_link` does not change any branch's cursor entries. -/
theorem entryAt_setLatestLink (cs : CursorStore) (t : Topic) (l : MsgId) (t' : Topic)
    (j : Identifier) :
    entryAt (setLatestLink cs t l) t' j = entryAt cs t' j := by
  unfold setLatestLink
  by_cases hs : (AList.lookup cs t).isSome
  · rw [if_pos hs]
    unfold entryAt
    have hmap : AList.lookup
        (cs.map (fun e => (e.1,
          if e.1 = t then { cursors := e.2.cursors, latestLink := l } else e.2))) t' =
        (AList.lookup cs t').map
          (fun b => if t' = t then { cursors := b.cursors, latestLink := l } else b) :=
      lookup_map_branchVal cs t (fun b => { cursors := b.cursors, latestLink := l }) t'
    rw [hmap]
    cases AList.lookup cs t' with
    | none => rfl
    | some b =>
      rw [Option.map_some']
      by_cases ht : t' = t
      · rw [if_pos ht]
        rfl
      · rw [if_neg ht]
  · rw [if_neg hs]
    unfold entryAt
    rw [AList.lookup_append]
    by_cases ht : t' = t
    · subst ht
      have hnone : AList.lookup cs t' = none := by
        cases h : AList.lookup cs t' with
        | none => rfl
        | some b => rw [h] at hs; simp at hs
      rw [hnone, Option.none_or, AList.lookup_cons, if_pos rfl]
      rfl
    · have hone : AList.lookup [(t, ({ cursors := [], latestLink := l } : InnerCursorStore))] t'
          = none := by
        rw [AList.lookup_cons, if_neg (fun hc : t = t' => ht hc.symm)]
        rfl
      rw [hone, Option.or_none]

/-- Membership of a branch entry with the uniqueness invariant determines the
stored entry for its identifier. -/
theorem entryAt_of_mem (cs : CursorStore) (t : Topic) (b : InnerCursorStore)
    (hb : AList.lookup cs t = some b) (hnd : BranchNodupIds cs t)
    (e : Permissioned × Nat) (hmem : e ∈ b.cursors) :
    entryAt cs t e.1.identifier = some e := by
  rw [entryAt_of_lookup_some cs t e.1.identifier b hb]
  exact find_of_mem_nodup b.cursors e hmem (hnd b hb)

end CursorStore

/-! ## Further operation-level lemmas -/

theorem storeSpongos_cursor_store (s : State) (m : MsgId) (sp : Spongos) (l : MsgId) :
    (storeSpongos s m sp l).cursor_store = s.cursor_store := rfl

theorem storeSpongos_spongos_store (s : State) (m : MsgId) (sp : Spongos) (l : MsgId) :
    (storeSpongos s m sp l).spongos_store =
      AList.insert
        (if s.lean && !(match s.stream_address with
            | some a => decide (a.relative = l)
            | none => false) then AList.erase s.spongos_store l else s.spongos_store)
        m sp := rfl

theorem recvMessage_nil (a : Address) :
    recvMessage [] a = .error (.notFound a) := rfl

theorem recvMessage_single (m : TransportMessage) (a : Address) :
    recvMessage [m] a = .ok m := rfl

theorem getLast?_cons_ne_none (y : TransportMessage) (t : List TransportMessage) :
    (y :: t).getLast? ≠ none := by
  induction t generalizing y with
  | nil => simp
  | cons z t ih =>
    rw [List.getLast?_cons_cons]
    exact ih z

theorem recvMessage_multi (x y : TransportMessage) (t : List TransportMessage) (a : Address) :
    recvMessage (x :: y :: t) a = .error (.moreThanOne a) := by
  unfold recvMessage
  rw [List.getLast?_cons_cons]
  cases hl : (y :: t).getLast? with
  | none => exact absurd hl (getLast?_cons_ne_none y t)
  | some m => simp [List.dropLast]


/-! ## Keyload loop lemmas -/

theorem shouldStore_readonly (cs : CursorStore) (t : Topic) (p : Permissioned)
    (hro : p.isReadonly = true) : shouldStoreCursor cs t p = false := by
  unfold shouldStoreCursor
  rw [hro]
  rfl

theorem shouldStore_of_entry_none (cs : CursorStore) (t : Topic) (p : Permissioned)
    (hE : CursorStore.entryAt cs t p.identifier = none) (hro : p.isReadonly = false) :
    shouldStoreCursor cs t p = true := by
  unfold shouldStoreCursor
  rw [CursorStore.getPermission_eq_entry, hE, hro]
  rfl

theorem shouldStore_of_entry_same (cs : CursorStore) (t : Topic) (p : Permissioned) (c : Nat)
    (hE : CursorStore.entryAt cs t p.identifier = some (p, c)) :
    shouldStoreCursor cs t p = false := by
  unfold shouldStoreCursor
  rw [CursorStore.getPermission_eq_entry, hE]
  simp

theorem shouldStore_of_entry_diff (cs : CursorStore) (t : Topic) (p q : Permissioned) (c : Nat)
    (hE : CursorStore.entryAt cs t p.identifier = some (q, c)) (hqp : q ≠ p)
    (hro : p.isReadonly = false) :
    shouldStoreCursor cs t p = true := by
  unfold shouldStoreCursor
  rw [CursorStore.getPermission_eq_entry, hE, hro]
  simp [hqp]

/-- The keyload demotion loop: entries whose identifier is the author's or is
listed among the recipients are untouched; every other entry is re-bound to
`Read` at its stored cursor; other identifiers and the branch structure are
untouched. -/
theorem demoteLoop_spec (auth : Identifier) (subs : List Permissioned) (t : Topic)
    (stored : List (Permissioned × Nat)) :
    ∀ cs : CursorStore, CursorStore.BranchNodupIds cs t →
    (stored.map (·.1.identifier)).Nodup →
    (∀ e ∈ stored, CursorStore.entryAt cs t e.1.identifier = some e) →
    ((∀ j, (∀ e ∈ stored, e.1.identifier ≠ j) →
        CursorStore.entryAt (demoteLoop auth subs t stored cs) t j =
          CursorStore.entryAt cs t j) ∧
     (∀ e ∈ stored,
        CursorStore.entryAt (demoteLoop auth subs t stored cs) t e.1.identifier =
          (if (decide (e.1.identifier = auth)
              || subs.any (fun p => decide (p.identifier = e.1.identifier))) = true
           then some e
           else some (.read e.1.identifier, e.2))) ∧
     CursorStore.BranchNodupIds (demoteLoop auth subs t stored cs) t ∧
     (AList.lookup (demoteLoop auth subs t stored cs) t).isSome =
       (AList.lookup cs t).isSome) := by
  induction stored with
  | nil =>
    intro cs hnd _ _
    exact ⟨fun j _ => rfl, fun e he => absurd he (List.not_mem_nil e), hnd, rfl⟩
  | cons e₀ rest ih =>
    obtain ⟨p₀, c₀⟩ := e₀
    intro cs hnd hids hacc
    rw [List.map_cons, List.nodup_cons] at hids
    have hacc₀ := hacc (p₀, c₀) (List.mem_cons_self _ rest)
    have hfold : demoteLoop auth subs t ((p₀, c₀) :: rest) cs =
        demoteLoop auth subs t rest (demoteStep auth subs t cs (p₀, c₀)) := rfl
    have hrestne : ∀ e ∈ rest, e.1.identifier ≠ p₀.identifier := by
      intro e he hc
      exact hids.1 (hc ▸ List.mem_map_of_mem (·.1.identifier) he)
    by_cases hcond : (decide ((p₀, c₀).1.identifier = auth)
        || subs.any (fun p => decide (p.identifier = (p₀, c₀).1.identifier))) = true
    · have hstep : demoteStep auth subs t cs (p₀, c₀) = cs := by
        unfold demoteStep
        rw [if_pos hcond]
      obtain ⟨ihf, ihe, ihnd, ihs⟩ := ih cs hnd hids.2
        (fun e he => hacc e (List.mem_cons_of_mem _ he))
      rw [hfold, hstep] at *
      refine ⟨?_, ?_, ihnd, ihs⟩
      · intro j hj
        exact ihf j (fun e he => hj e (List.mem_cons_of_mem _ he))
      · intro e he
        rcases List.mem_cons.mp he with rfl | he'
        · rw [if_pos hcond, ihf p₀.identifier hrestne]
          exact hacc₀
        · exact ihe e he'
    · have hbex : ∃ b, AList.lookup cs t = some b := by
        cases hb' : AList.lookup cs t with
        | none =>
          rw [CursorStore.entryAt_of_lookup_none _ _ _ hb'] at hacc₀
          exact Option.noConfusion hacc₀
        | some b => exact ⟨b, rfl⟩
      obtain ⟨b, hb⟩ := hbex
      have hstep : demoteStep auth subs t cs (p₀, c₀) =
          CursorStore.insertCursor cs t (.read p₀.identifier) c₀ := by
        unfold demoteStep
        rw [if_neg hcond]
      have hself : CursorStore.entryAt
          (CursorStore.insertCursor cs t (.read p₀.identifier) c₀) t p₀.identifier =
          some (.read p₀.identifier, c₀) := by
        have h := CursorStore.entryAt_insertCursor_self cs t (.read p₀.identifier) c₀ hnd b hb
        rw [show (Permissioned.read p₀.identifier).identifier = p₀.identifier from rfl,
          hacc₀] at h
        rw [h]
        have hmatch : (match (some (p₀, c₀) : Option (Permissioned × Nat)) with
            | none => c₀
            | some (q, c0) => if q = Permissioned.read p₀.identifier then c₀ else c0) = c₀ := by
          show (if p₀ = Permissioned.read p₀.identifier then c₀ else c₀) = c₀
          exact ite_self c₀
        rw [hmatch]
      have hnd' : CursorStore.BranchNodupIds
          (CursorStore.insertCursor cs t (.read p₀.identifier) c₀) t :=
        CursorStore.branchNodup_insertCursor cs t _ _ hnd
      have hacc' : ∀ e ∈ rest, CursorStore.entryAt
          (CursorStore.insertCursor cs t (.read p₀.identifier) c₀) t e.1.identifier = some e := by
        intro e he
        rw [CursorStore.entryAt_insertCursor_other cs t (.read p₀.identifier) c₀
          e.1.identifier (hrestne e he)]
        exact hacc e (List.mem_cons_of_mem _ he)
      obtain ⟨ihf, ihe, ihnd, ihs⟩ := ih _ hnd' hids.2 hacc'
      rw [hfold, hstep]
      refine ⟨?_, ?_, ihnd, ?_⟩
      · intro j hj
        rw [ihf j (fun e he => hj e (List.mem_cons_of_mem _ he))]
        exact CursorStore.entryAt_insertCursor_other cs t (.read p₀.identifier) c₀ j
          (hj (p₀, c₀) (List.mem_cons_self _ rest)).symm
      · intro e he
        rcases List.mem_cons.mp he with rfl | he'
        · rw [if_neg hcond, ihf p₀.identifier hrestne]
          exact hself
        · exact ihe e he'
      · rw [ihs]
        exact CursorStore.lookup_isSome_insertCursor cs t _ _ t

/-- The keyload recipient-insertion loop: a non-read-only recipient ends up
tracked under the listed permission, at its previously stored cursor if any
and at `INIT_MESSAGE_NUM` otherwise; other identifiers are untouched. -/
theorem insertLoop_spec (t : Topic) (subs : List Permissioned) :
    ∀ cs : CursorStore, CursorStore.BranchNodupIds cs t →
    (subs.map (·.identifier)).Nodup →
    (AList.lookup cs t).isSome = true →
    ((∀ j, (∀ p ∈ subs, p.identifier ≠ j) →
        CursorStore.entryAt (insertLoop t subs cs) t j = CursorStore.entryAt cs t j) ∧
     (∀ p ∈ subs, p.isReadonly = false →
        CursorStore.entryAt (insertLoop t subs cs) t p.identifier =
          some (p, ((CursorStore.entryAt cs t p.identifier).map (·.2)).getD
            INIT_MESSAGE_NUM))) := by
  induction subs with
  | nil =>
    intro cs _ _ _
    exact ⟨fun j _ => rfl, fun p hp => absurd hp (List.not_mem_nil p)⟩
  | cons p₀ rest ih =>
    intro cs hnd hids hbs
    rw [List.map_cons, List.nodup_cons] at hids
    obtain ⟨b, hb⟩ := Option.isSome_iff_exists.mp hbs
    have hfold : insertLoop t (p₀ :: rest) cs = insertLoop t rest (insertStep t cs p₀) := rfl
    have hrestne : ∀ p ∈ rest, p.identifier ≠ p₀.identifier := by
      intro p hp hc
      exact hids.1 (hc ▸ List.mem_map_of_mem (·.identifier) hp)
    by_cases hro : p₀.isReadonly = true
    · have hstep : insertStep t cs p₀ = cs := by
        unfold insertStep
        rw [shouldStore_readonly cs t p₀ hro]
        rfl
      obtain ⟨ihf, ihe⟩ := ih cs hnd hids.2 hbs
      rw [hfold, hstep] at *
      refine ⟨?_, ?_⟩
      · intro j hj
        exact ihf j (fun p hp => hj p (List.mem_cons_of_mem _ hp))
      · intro p hp hpro
        rcases List.mem_cons.mp hp with rfl | hp'
        · rw [hro] at hpro
          exact Bool.noConfusion hpro
        · exact ihe p hp' hpro
    · have hro' : p₀.isReadonly = false := Bool.eq_false_iff.mpr hro
      cases hE : CursorStore.entryAt cs t p₀.identifier with
      | none =>
        have hstep : insertStep t cs p₀ = CursorStore.insertCursor cs t p₀ INIT_MESSAGE_NUM := by
          unfold insertStep
          rw [shouldStore_of_entry_none cs t p₀ hE hro']
          rfl
        have hself : CursorStore.entryAt
            (CursorStore.insertCursor cs t p₀ INIT_MESSAGE_NUM) t p₀.identifier =
            some (p₀, INIT_MESSAGE_NUM) := by
          have h := CursorStore.entryAt_insertCursor_self cs t p₀ INIT_MESSAGE_NUM hnd b hb
          rw [hE] at h
          exact h
        have hnd' := CursorStore.branchNodup_insertCursor cs t p₀ INIT_MESSAGE_NUM hnd
        have hbs' : (AList.lookup (CursorStore.insertCursor cs t p₀ INIT_MESSAGE_NUM) t).isSome
            = true := by
          rw [CursorStore.lookup_isSome_insertCursor]
          exact hbs
        obtain ⟨ihf, ihe⟩ := ih _ hnd' hids.2 hbs'
        rw [hfold, hstep]
        refine ⟨?_, ?_⟩
        · intro j hj
          rw [ihf j (fun p hp => hj p (List.mem_cons_of_mem _ hp))]
          exact CursorStore.entryAt_insertCursor_other cs t p₀ INIT_MESSAGE_NUM j
            (hj p₀ (List.mem_cons_self _ rest)).symm
        · intro p hp hpro
          rcases List.mem_cons.mp hp with rfl | hp'
          · rw [ihf p.identifier hrestne, hself, hE]
            rfl
          · rw [ihe p hp' hpro,
              CursorStore.entryAt_insertCursor_other cs t p₀ INIT_MESSAGE_NUM
                p.identifier (hrestne p hp')]
      | some e =>
        obtain ⟨q, c⟩ := e
        by_cases hq : q = p₀
        · subst hq
          have hstep : insertStep t cs q = cs := by
            unfold insertStep
            rw [shouldStore_of_entry_same cs t q c hE]
            rfl
          obtain ⟨ihf, ihe⟩ := ih cs hnd hids.2 hbs
          rw [hfold, hstep] at *
          refine ⟨?_, ?_⟩
          · intro j hj
            exact ihf j (fun p hp => hj p (List.mem_cons_of_mem _ hp))
          · intro p hp hpro
            rcases List.mem_cons.mp hp with rfl | hp'
            · rw [ihf p.identifier hrestne, hE]
              rfl
            · exact ihe p hp' hpro
        · have hstep : insertStep t cs p₀ = CursorStore.insertCursor cs t p₀ INIT_MESSAGE_NUM := by
            unfold insertStep
            rw [shouldStore_of_entry_diff cs t p₀ q c hE hq hro']
            rfl
          have hself : CursorStore.entryAt
              (CursorStore.insertCursor cs t p₀ INIT_MESSAGE_NUM) t p₀.identifier =
              some (p₀, c) := by
            have h := CursorStore.entryAt_insertCursor_self cs t p₀ INIT_MESSAGE_NUM hnd b hb
            rw [hE] at h
            rw [h]
            simp [hq]
          have hnd' := CursorStore.branchNodup_insertCursor cs t p₀ INIT_MESSAGE_NUM hnd
          have hbs' : (AList.lookup (CursorStore.insertCursor cs t p₀ INIT_MESSAGE_NUM) t).isSome
              = true := by
            rw [CursorStore.lookup_isSome_insertCursor]
            exact hbs
          obtain ⟨ihf, ihe⟩ := ih _ hnd' hids.2 hbs'
          rw [hfold, hstep]
          refine ⟨?_, ?_⟩
          · intro j hj
            rw [ihf j (fun p hp => hj p (List.mem_cons_of_mem _ hp))]
            exact CursorStore.entryAt_insertCursor_other cs t p₀ INIT_MESSAGE_NUM j
              (hj p₀ (List.mem_cons_self _ rest)).symm
          · intro p hp hpro
            rcases List.mem_cons.mp hp with rfl | hp'
            · rw [ihf p.identifier hrestne, hself, hE]
              rfl
            · rw [ihe p hp' hpro,
                CursorStore.entryAt_insertCursor_other cs t p₀ INIT_MESSAGE_NUM
                  p.identifier (hrestne p hp')]

/-! ## Backup round-trip lemmas -/

namespace AList

variable {κ α : Type} [DecidableEq κ]

theorem not_any_of_not_mem_keys (l : List (κ × α)) (k : κ)
    (h : k ∉ l.map (·.1)) : l.any (fun e => decide (e.1 = k)) = false := by
  rw [List.any_eq_false]
  intro e he hc
  exact h (List.mem_map.mpr ⟨e, he, of_decide_eq_true hc⟩)

theorem lookup_eq_none_of_not_mem_keys (l : List (κ × α)) (k : κ)
    (h : k ∉ l.map (·.1)) : lookup l k = none :=
  lookup_eq_none_of_not_any l k (not_any_of_not_mem_keys l k h)

theorem lookup_of_mem_nodupKeys (l : List (κ × α)) (e : κ × α)
    (hnd : (l.map (·.1)).Nodup) (he : e ∈ l) : lookup l e.1 = some e.2 := by
  induction l with
  | nil => cases he
  | cons a t ih =>
    rw [List.map_cons, List.nodup_cons] at hnd
    rw [lookup_cons]
    rcases List.mem_cons.mp he with h1 | h1
    · subst h1
      rw [if_pos rfl]
    · have hne : a.1 ≠ e.1 := by
        intro hk
        apply hnd.1
        rw [hk]
        exact List.mem_map.mpr ⟨e, h1, rfl⟩
      rw [if_neg hne]
      exact ih hnd.2 h1

theorem lookup_isSome_of_mem_keys (l : List (κ × α)) (k : κ)
    (h : k ∈ l.map (·.1)) : (lookup l k).isSome = true := by
  induction l with
  | nil => cases h
  | cons a t ih =>
    rw [lookup_cons]
    by_cases ha : a.1 = k
    · rw [if_pos ha]
      rfl
    · rw [if_neg ha]
      rw [List.map_cons, List.mem_cons] at h
      exact ih (h.resolve_left (fun hh => ha hh.symm))

end AList

theorem serList_nil {α : Type} (f : α → List Nat) : serList [] f = [] := rfl

theorem serList_cons {α : Type} (x : α) (l : List α) (f : α → List Nat) :
    serList (x :: l) f = f x ++ serList l f := rfl

theorem rdNat_cons (x : Nat) (r : List Nat) : rdNat (x :: r) = some (x, r) := rfl

theorem rdOptNat_round (o : Option Nat) (r : List Nat) :
    rdOptNat (serOptNat o ++ r) = some (o, r) := by
  cases o <;> rfl

theorem rdMsgId_round (m : MsgId) (r : List Nat) :
    rdMsgId (serMsgId m ++ r) = some (m, r) := rfl

theorem rdOptAddress_round (oa : Option Address) (r : List Nat) :
    rdOptAddress (serOptAddress oa ++ r) = some (oa, r) := by
  cases oa <;> rfl

theorem rdDuration_round (d : PermissionDuration) (r : List Nat) :
    rdDuration (serDuration d ++ r) = some (d, r) := by
  cases d <;> rfl

theorem rdPerm_round (p : Permissioned) (r : List Nat) :
    rdPerm (serPerm p ++ r) = some (p, r) := by
  cases p with
  | read i => rfl
  | readWrite i d => cases d <;> rfl
  | admin i => rfl

theorem unwrapSpongosLoop_step (n : Nat) (st : State) (k : MsgId) (v : Spongos)
    (rest : List Nat) :
    unwrapSpongosLoop (n + 1) st (serMsgId k ++ (v :: rest)) =
      unwrapSpongosLoop n
        { st with spongos_store := AList.insert st.spongos_store k v } rest := rfl

theorem unwrapCursorLoop_step (t : Topic) (n : Nat) (st : State) (p : Permissioned)
    (c : Nat) (rest : List Nat) :
    unwrapCursorLoop t (n + 1) st (serPerm p ++ (c :: rest)) =
      unwrapCursorLoop t n
        { st with cursor_store := CursorStore.insertCursor st.cursor_store t p c } rest := by
  cases p with
  | read i => rfl
  | readWrite i d => cases d <;> rfl
  | admin i => rfl

theorem unwrapSubsLoop_step (n : Nat) (st : State) (i : Identifier) (rest : List Nat) :
    unwrapSubsLoop (n + 1) st (i :: rest) =
      unwrapSubsLoop n { st with subscribers := insertSet st.subscribers i } rest := rfl

theorem unwrapPskLoop_step (n : Nat) (st : State) (k : PskId) (v : Psk) (rest : List Nat) :
    unwrapPskLoop (n + 1) st (k :: v :: rest) =
      unwrapPskLoop n { st with psk_store := AList.insert st.psk_store k v } rest := rfl

theorem unwrapTopicsLoop_step (n : Nat) (st : State) (t : Topic)
    (b : InnerCursorStore) (rest : List Nat) :
    unwrapTopicsLoop (n + 1) st (serBranch (t, b) ++ rest) =
      (unwrapCursorLoop t b.cursors.length
        { st with
            topics := insertSet st.topics t
            cursor_store := CursorStore.setLatestLink st.cursor_store t b.latestLink }
        (serList b.cursors (fun en => serPerm en.1 ++ [en.2]) ++ rest)).bind
        (fun sr => unwrapTopicsLoop n sr.1 sr.2) := rfl

theorem unwrapSpongosLoop_round (l : List (MsgId × Spongos)) :
    ∀ (st : State) (r : List Nat),
    (∀ e ∈ l, st.spongos_store.any (fun en => decide (en.1 = e.1)) = false) →
    (l.map (·.1)).Nodup →
    unwrapSpongosLoop l.length st
        (serList l (fun e => serMsgId e.1 ++ [e.2]) ++ r) =
      some ({ st with spongos_store := st.spongos_store ++ l }, r) := by
  induction l with
  | nil =>
    intro st r _ _
    show some (st, r) = some ({ st with spongos_store := st.spongos_store ++ [] }, r)
    rw [List.append_nil]
  | cons e rest ih =>
    intro st r hfresh hnd
    obtain ⟨k, v⟩ := e
    rw [List.map_cons, List.nodup_cons] at hnd
    have hin : serList ((k, v) :: rest) (fun e => serMsgId e.1 ++ [e.2]) ++ r =
        serMsgId k ++ (v :: (serList rest (fun e => serMsgId e.1 ++ [e.2]) ++ r)) := by
      rw [serList_cons]
      simp [List.append_assoc]
    rw [List.length_cons, hin, unwrapSpongosLoop_step]
    have hins : AList.insert st.spongos_store k v = st.spongos_store ++ [(k, v)] :=
      AList.insert_of_not_any _ _ _ (hfresh (k, v) (List.mem_cons_self _ _))
    rw [hins]
    have hf' : ∀ e ∈ rest,
        (st.spongos_store ++ [(k, v)]).any (fun en => decide (en.1 = e.1)) = false := by
      intro e he
      rw [List.any_append, Bool.or_eq_false_iff]
      refine ⟨hfresh e (List.mem_cons_of_mem _ he), ?_⟩
      have hkne : k ≠ e.1 := by
        intro hk
        exact hnd.1 (hk ▸ List.mem_map.mpr ⟨e, he, rfl⟩)
      simp [hkne]
    rw [ih { st with spongos_store := st.spongos_store ++ [(k, v)] } r hf' hnd.2]
    show some ({ st with
        spongos_store := (st.spongos_store ++ [(k, v)]) ++ rest }, r) =
      some ({ st with spongos_store := st.spongos_store ++ ((k, v) :: rest) }, r)
    rw [← List.append_cons]

theorem unwrapSubsLoop_round (l : List Identifier) :
    ∀ (st : State) (r : List Nat),
    (∀ i ∈ l, i ∉ st.subscribers) →
    l.Nodup →
    unwrapSubsLoop l.length st (serList l (fun i => [i]) ++ r) =
      some ({ st with subscribers := st.subscribers ++ l }, r) := by
  induction l with
  | nil =>
    intro st r _ _
    show some (st, r) = some ({ st with subscribers := st.subscribers ++ [] }, r)
    rw [List.append_nil]
  | cons i rest ih =>
    intro st r hfresh hnd
    rw [List.nodup_cons] at hnd
    have hin : serList (i :: rest) (fun i => [i]) ++ r =
        i :: (serList rest (fun i => [i]) ++ r) := by
      rw [serList_cons]
      simp [List.append_assoc]
    rw [List.length_cons, hin, unwrapSubsLoop_step]
    have hins : insertSet st.subscribers i = st.subscribers ++ [i] := by
      unfold insertSet
      rw [if_neg (hfresh i (List.mem_cons_self _ _))]
    rw [hins]
    have hf' : ∀ j ∈ rest, j ∉ st.subscribers ++ [i] := by
      intro j hj hmem
      rcases List.mem_append.mp hmem with hm | hm
      · exact hfresh j (List.mem_cons_of_mem _ hj) hm
      · rcases List.mem_singleton.mp hm with rfl
        exact hnd.1 hj
    rw [ih { st with subscribers := st.subscribers ++ [i] } r hf' hnd.2]
    show some ({ st with subscribers := (st.subscribers ++ [i]) ++ rest }, r) =
      some ({ st with subscribers := st.subscribers ++ (i :: rest) }, r)
    rw [← List.append_cons]

theorem unwrapPskLoop_round (l : List (PskId × Psk)) :
    ∀ (st : State) (r : List Nat),
    (∀ e ∈ l, st.psk_store.any (fun en => decide (en.1 = e.1)) = false) →
    (l.map (·.1)).Nodup →
    unwrapPskLoop l.length st (serList l (fun e => [e.1, e.2]) ++ r) =
      some ({ st with psk_store := st.psk_store ++ l }, r) := by
  induction l with
  | nil =>
    intro st r _ _
    show some (st, r) = some ({ st with psk_store := st.psk_store ++ [] }, r)
    rw [List.append_nil]
  | cons e rest ih =>
    intro st r hfresh hnd
    obtain ⟨k, v⟩ := e
    rw [List.map_cons, List.nodup_cons] at hnd
    have hin : serList ((k, v) :: rest) (fun e => [e.1, e.2]) ++ r =
        k :: v :: (serList rest (fun e => [e.1, e.2]) ++ r) := by
      rw [serList_cons]
      simp [List.append_assoc]
    rw [List.length_cons, hin, unwrapPskLoop_step]
    have hins : AList.insert st.psk_store k v = st.psk_store ++ [(k, v)] :=
      AList.insert_of_not_any _ _ _ (hfresh (k, v) (List.mem_cons_self _ _))
    rw [hins]
    have hf' : ∀ e ∈ rest,
        (st.psk_store ++ [(k, v)]).any (fun en => decide (en.1 = e.1)) = false := by
      intro e he
      rw [List.any_append, Bool.or_eq_false_iff]
      refine ⟨hfresh e (List.mem_cons_of_mem _ he), ?_⟩
      have hkne : k ≠ e.1 := by
        intro hk
        exact hnd.1 (hk ▸ List.mem_map.mpr ⟨e, he, rfl⟩)
      simp [hkne]
    rw [ih { st with psk_store := st.psk_store ++ [(k, v)] } r hf' hnd.2]
    show some ({ st with psk_store := (st.psk_store ++ [(k, v)]) ++ rest }, r) =
      some ({ st with psk_store := st.psk_store ++ ((k, v) :: rest) }, r)
    rw [← List.append_cons]

theorem map_branch_other (pre : CursorStore) (t : Topic)
    (f : InnerCursorStore → InnerCursorStore)
    (hfresh : pre.any (fun e => decide (e.1 = t)) = false) :
    pre.map (fun e => (e.1, if e.1 = t then f e.2 else e.2)) = pre := by
  induction pre with
  | nil => rfl
  | cons a rest ih =>
    rw [List.any_cons, Bool.or_eq_false_iff] at hfresh
    rw [List.map_cons, if_neg (of_decide_eq_false hfresh.1), ih hfresh.2]

theorem map_branch_single (t : Topic) (b : InnerCursorStore)
    (f : InnerCursorStore → InnerCursorStore) :
    List.map (fun e => (e.1, if e.1 = t then f e.2 else e.2)) [(t, b)] = [(t, f b)] := by
  rw [List.map_cons, List.map_nil]
  show [((t, b).1, if (t, b).1 = t then f (t, b).2 else (t, b).2)] = [(t, f b)]
  rw [if_pos rfl]

theorem insertCursor_append_branch (pre : CursorStore) (t : Topic)
    (acc : List (Permissioned × Nat)) (link : MsgId) (p : Permissioned) (c : Nat)
    (hfresh : pre.any (fun e => decide (e.1 = t)) = false)
    (hid : p.identifier ∉ acc.map (·.1.identifier)) :
    CursorStore.insertCursor (pre ++ [(t, ⟨acc, link⟩)]) t p c =
      pre ++ [(t, ⟨acc ++ [(p, c)], link⟩)] := by
  have hlook : AList.lookup (pre ++ [(t, (⟨acc, link⟩ : InnerCursorStore))]) t =
      some ⟨acc, link⟩ := by
    rw [AList.lookup_append, AList.lookup_eq_none_of_not_any pre t hfresh]
    rw [Option.none_or, AList.lookup_cons, if_pos rfl]
  have hEf : InnerCursorStore.entryFor ⟨acc, link⟩ p.identifier = none := by
    unfold InnerCursorStore.entryFor
    rw [List.find?_eq_none]
    intro x hx hc
    exact hid (List.mem_map.mpr ⟨x, hx, of_decide_eq_true hc⟩)
  have hperm : CursorStore.getPermission (pre ++ [(t, (⟨acc, link⟩ : InnerCursorStore))]) t
      p.identifier = none := by
    simp [CursorStore.getPermission, hlook, hEf]
  have hkey : acc.any (fun x => decide (x.1 = p)) = false := by
    rw [List.any_eq_false]
    intro x hx hc
    refine hid (List.mem_map.mpr ⟨x, hx, ?_⟩)
    rw [of_decide_eq_true hc]
  rw [CursorStore.insertCursor_none_case _ _ _ _ hperm]
  unfold CursorStore.modifyBranch
  rw [hlook, if_pos Option.isSome_some, List.map_append,
    map_branch_other pre t (fun b => { b with cursors := AList.insert b.cursors p c }) hfresh,
    map_branch_single t ⟨acc, link⟩
      (fun b => { b with cursors := AList.insert b.cursors p c })]
  show pre ++ [(t, (⟨AList.insert acc p c, link⟩ : InnerCursorStore))] = _
  rw [AList.insert_of_not_any acc p c hkey]

theorem unwrapCursorLoop_round (t : Topic) (l : List (Permissioned × Nat)) :
    ∀ (st : State) (pre : CursorStore) (acc : List (Permissioned × Nat)) (link : MsgId)
      (r : List Nat),
    st.cursor_store = pre ++ [(t, ⟨acc, link⟩)] →
    pre.any (fun e => decide (e.1 = t)) = false →
    ((acc ++ l).map (·.1.identifier)).Nodup →
    unwrapCursorLoop t l.length st
        (serList l (fun en => serPerm en.1 ++ [en.2]) ++ r) =
      some ({ st with cursor_store := pre ++ [(t, ⟨acc ++ l, link⟩)] }, r) := by
  induction l with
  | nil =>
    intro st pre acc link r hcs hfresh hnd
    show some (st, r) =
      some ({ st with cursor_store :=
        pre ++ [(t, (⟨acc ++ [], link⟩ : InnerCursorStore))] }, r)
    rw [List.append_nil, ← hcs]
  | cons e rest ih =>
    intro st pre acc link r hcs hfresh hnd
    obtain ⟨p, c⟩ := e
    have hin : serList ((p, c) :: rest) (fun en => serPerm en.1 ++ [en.2]) ++ r =
        serPerm p ++ (c :: (serList rest (fun en => serPerm en.1 ++ [en.2]) ++ r)) := by
      rw [serList_cons]
      simp [List.append_assoc]
    rw [List.length_cons, hin, unwrapCursorLoop_step, hcs]
    have hmap := hnd
    rw [List.map_append, List.map_cons, List.nodup_append] at hmap
    have hidfresh : p.identifier ∉ acc.map (·.1.identifier) := by
      intro hmem
      exact hmap.2.2 hmem (List.mem_cons_self _ _)
    rw [insertCursor_append_branch pre t acc link p c hfresh hidfresh]
    have hnd' := hnd
    rw [List.append_cons] at hnd'
    have hih := ih { st with cursor_store := pre ++ [(t, ⟨acc ++ [(p, c)], link⟩)] }
      pre (acc ++ [(p, c)]) link r rfl hfresh hnd'
    refine hih.trans ?_
    show some ({ st with cursor_store :=
        pre ++ [(t, (⟨(acc ++ [(p, c)]) ++ rest, link⟩ : InnerCursorStore))] }, r) =
      some ({ st with cursor_store :=
        pre ++ [(t, (⟨acc ++ ((p, c) :: rest), link⟩ : InnerCursorStore))] }, r)
    rw [← List.append_cons]

theorem unwrapTopicsLoop_round (items : CursorStore) :
    ∀ (st : State) (r : List Nat),
    (items.map (·.1)).Nodup →
    (∀ e ∈ items, e.1 ∉ st.topics) →
    (∀ e ∈ items, st.cursor_store.any (fun en => decide (en.1 = e.1)) = false) →
    (∀ e ∈ items, (e.2.cursors.map (·.1.identifier)).Nodup) →
    unwrapTopicsLoop items.length st (serList items serBranch ++ r) =
      some ({ st with
          topics := st.topics ++ items.map (·.1)
          cursor_store := st.cursor_store ++ items }, r) := by
  induction items with
  | nil =>
    intro st r _ _ _ _
    show some (st, r) = some ({ st with
        topics := st.topics ++ []
        cursor_store := st.cursor_store ++ [] }, r)
    rw [List.append_nil, List.append_nil]
  | cons e rest ih =>
    intro st r hnd hft hfc hbr
    obtain ⟨t, b⟩ := e
    rw [List.map_cons, List.nodup_cons] at hnd
    have hin : serList ((t, b) :: rest) serBranch ++ r =
        serBranch (t, b) ++ (serList rest serBranch ++ r) := by
      rw [serList_cons, List.append_assoc]
    rw [List.length_cons, hin, unwrapTopicsLoop_step]
    have hins : insertSet st.topics t = st.topics ++ [t] := by
      unfold insertSet
      rw [if_neg (hft (t, b) (List.mem_cons_self _ _))]
    have hset : CursorStore.setLatestLink st.cursor_store t b.latestLink =
        st.cursor_store ++ [(t, ⟨[], b.latestLink⟩)] := by
      unfold CursorStore.setLatestLink
      rw [AList.lookup_eq_none_of_not_any _ _ (hfc (t, b) (List.mem_cons_self _ _))]
      rw [if_neg (by simp)]
    rw [hins, hset]
    rw [unwrapCursorLoop_round t b.cursors
      { st with
          topics := st.topics ++ [t]
          cursor_store := st.cursor_store ++ [(t, ⟨[], b.latestLink⟩)] }
      st.cursor_store [] b.latestLink (serList rest serBranch ++ r) rfl
      (hfc (t, b) (List.mem_cons_self _ _))
      (by simpa using hbr (t, b) (List.mem_cons_self _ _))]
    simp only [Option.some_bind]
    rw [List.nil_append]
    have hft' : ∀ e ∈ rest, e.1 ∉ st.topics ++ [t] := by
      intro e he hmem
      rcases List.mem_append.mp hmem with hm | hm
      · exact hft e (List.mem_cons_of_mem _ he) hm
      · exact hnd.1 ((List.mem_singleton.mp hm) ▸ List.mem_map.mpr ⟨e, he, rfl⟩)
    have hfc' : ∀ e ∈ rest,
        (st.cursor_store ++ [(t, (⟨b.cursors, b.latestLink⟩ : InnerCursorStore))]).any
          (fun en => decide (en.1 = e.1)) = false := by
      intro e he
      rw [List.any_append, Bool.or_eq_false_iff]
      refine ⟨hfc e (List.mem_cons_of_mem _ he), ?_⟩
      have hne : t ≠ e.1 := fun hk => hnd.1 (hk ▸ List.mem_map.mpr ⟨e, he, rfl⟩)
      simp [hne]
    have hbr' : ∀ e ∈ rest, (e.2.cursors.map (·.1.identifier)).Nodup :=
      fun e he => hbr e (List.mem_cons_of_mem _ he)
    have hih := ih { st with
        topics := st.topics ++ [t]
        cursor_store := st.cursor_store ++ [(t, ⟨b.cursors, b.latestLink⟩)] }
      r hnd.2 hft' hfc' hbr'
    refine hih.trans ?_
    show some ({ st with
        topics := (st.topics ++ [t]) ++
          rest.map (fun e : Topic × InnerCursorStore => e.1)
        cursor_store := (st.cursor_store ++ [(t, b)]) ++ rest }, r) =
      some ({ st with
        topics := st.topics ++
          (t :: rest.map (fun e : Topic × InnerCursorStore => e.1))
        cursor_store := st.cursor_store ++ ((t, b) :: rest) }, r)
    rw [← List.append_cons, ← List.append_cons]

theorem serTopicSection_of_lookup (s : State) (t : Topic) (b : InnerCursorStore)
    (hl : AList.lookup s.cursor_store t = some b) :
    serTopicSection s t = serBranch (t, b) := by
  unfold serTopicSection serBranch CursorStore.getLatestLink CursorStore.cursorsByTopic
  rw [hl]
  rfl

theorem topics_filter_eq (s : State) (hkeys : s.cursor_store.map (·.1) = s.topics) :
    s.topics.filter (fun t => (CursorStore.getLatestLink s.cursor_store t).isSome) =
      s.topics := by
  rw [List.filter_eq_self]
  intro t ht
  have hm : t ∈ s.cursor_store.map (·.1) := by
    rw [hkeys]
    exact ht
  have hs := AList.lookup_isSome_of_mem_keys s.cursor_store t hm
  unfold CursorStore.getLatestLink
  cases hl : AList.lookup s.cursor_store t with
  | none =>
    rw [hl] at hs
    simp at hs
  | some b => rfl

theorem serializeState_eq (s : State) (hkeys : s.cursor_store.map (·.1) = s.topics)
    (hnodup : s.topics.Nodup) :
    serializeState s =
      serOptNat s.user_id ++ serOptAddress s.stream_address ++
        serOptNat s.author_identifier ++ [s.base_branch] ++
        serSized s.spongos_store (fun e => serMsgId e.1 ++ [e.2]) ++
        serSized s.cursor_store serBranch ++
        serSized s.subscribers (fun i => [i]) ++
        serSized s.psk_store (fun e => [e.1, e.2]) ++
        [if s.lean then 1 else 0] := by
  unfold serializeState
  rw [topics_filter_eq s hkeys]
  have hall : ∀ cs : CursorStore,
      (∀ e ∈ cs, AList.lookup s.cursor_store e.1 = some e.2) →
      serList (cs.map (·.1)) (serTopicSection s) = serList cs serBranch := by
    intro cs
    induction cs with
    | nil => intro _; rfl
    | cons e rest ih =>
      intro h
      rw [List.map_cons, serList_cons, serList_cons,
        ih (fun e' he' => h e' (List.mem_cons_of_mem _ he')),
        serTopicSection_of_lookup s e.1 e.2 (h e (List.mem_cons_self _ _))]
  have hsz : serSized s.topics (serTopicSection s) = serSized s.cursor_store serBranch := by
    unfold serSized
    rw [← hkeys, List.length_map,
      hall s.cursor_store (fun e he =>
        AList.lookup_of_mem_nodupKeys s.cursor_store e
          (by rw [hkeys]; exact hnodup) he)]
  rw [hsz]

theorem deserializeState_round (s : State) (hwf : State.WF s) (r : List Nat) :
    deserializeState (serializeState s ++ r) = some (s, r) := by
  obtain ⟨hsp, hpsk, hsub, htop, hkeys, hbr⟩ := hwf
  rw [serializeState_eq s hkeys htop]
  simp only [serSized, List.append_assoc, List.cons_append, List.singleton_append,
    List.nil_append]
  have H1 : ∀ rr : List Nat, unwrapSpongosLoop s.spongos_store.length
      { State.dflt with
          user_id := s.user_id
          stream_address := s.stream_address
          author_identifier := s.author_identifier
          base_branch := s.base_branch }
      (serList s.spongos_store (fun e => serMsgId e.1 ++ [e.2]) ++ rr) =
      some ({ State.dflt with
          user_id := s.user_id
          stream_address := s.stream_address
          author_identifier := s.author_identifier
          base_branch := s.base_branch
          spongos_store := s.spongos_store }, rr) :=
    fun rr => unwrapSpongosLoop_round s.spongos_store _ rr (fun e he => rfl) hsp
  have H2 : ∀ rr : List Nat, unwrapTopicsLoop s.cursor_store.length
      { State.dflt with
          user_id := s.user_id
          stream_address := s.stream_address
          author_identifier := s.author_identifier
          base_branch := s.base_branch
          spongos_store := s.spongos_store }
      (serList s.cursor_store serBranch ++ rr) =
      some ({ State.dflt with
          user_id := s.user_id
          stream_address := s.stream_address
          author_identifier := s.author_identifier
          base_branch := s.base_branch
          spongos_store := s.spongos_store
          topics := s.topics
          cursor_store := s.cursor_store }, rr) := by
    intro rr
    have h := unwrapTopicsLoop_round s.cursor_store
      { State.dflt with
          user_id := s.user_id
          stream_address := s.stream_address
          author_identifier := s.author_identifier
          base_branch := s.base_branch
          spongos_store := s.spongos_store }
      rr (by rw [hkeys]; exact htop)
      (fun e he h => List.not_mem_nil e.1 h)
      (fun e he => rfl)
      hbr
    rw [hkeys] at h
    exact h
  have H3 : ∀ rr : List Nat, unwrapSubsLoop s.subscribers.length
      { State.dflt with
          user_id := s.user_id
          stream_address := s.stream_address
          author_identifier := s.author_identifier
          base_branch := s.base_branch
          spongos_store := s.spongos_store
          topics := s.topics
          cursor_store := s.cursor_store }
      (serList s.subscribers (fun i => [i]) ++ rr) =
      some ({ State.dflt with
          user_id := s.user_id
          stream_address := s.stream_address
          author_identifier := s.author_identifier
          base_branch := s.base_branch
          spongos_store := s.spongos_store
          topics := s.topics
          cursor_store := s.cursor_store
          subscribers := s.subscribers }, rr) :=
    fun rr => unwrapSubsLoop_round s.subscribers _ rr
      (fun i hi h => List.not_mem_nil i h) hsub
  have H4 : ∀ rr : List Nat, unwrapPskLoop s.psk_store.length
      { State.dflt with
          user_id := s.user_id
          stream_address := s.stream_address
          author_identifier := s.author_identifier
          base_branch := s.base_branch
          spongos_store := s.spongos_store
          topics := s.topics
          cursor_store := s.cursor_store
          subscribers := s.subscribers }
      (serList s.psk_store (fun e => [e.1, e.2]) ++ rr) =
      some ({ State.dflt with
          user_id := s.user_id
          stream_address := s.stream_address
          author_identifier := s.author_identifier
          base_branch := s.base_branch
          spongos_store := s.spongos_store
          topics := s.topics
          cursor_store := s.cursor_store
          subscribers := s.subscribers
          psk_store := s.psk_store }, rr) :=
    fun rr => unwrapPskLoop_round s.psk_store _ rr (fun e he => rfl) hpsk
  have hlean : ((if s.lean then (1 : Nat) else 0) == 1) = s.lean := by
    cases s.lean <;> rfl
  simp only [deserializeState, rdOptNat_round, rdOptAddress_round, rdNat_cons,
    H1, H2, H3, H4, hlean]

/-! ## Claim theorems -/

/-- C1: for every user and password, restoring the blob produced by `backup`
with the same password over any transport succeeds and yields a user equal to
the original (user equality is state equality; the state satisfies the
serializable-state invariant of its hash collections), while restoring it with
any other password fails with the MAC-mismatch error. -/
theorem C1_backup_restore_roundtrip {τ : Type} (u : User τ) (tr : τ) (pwd : Nat)
    (hwf : State.WF u.state) :
    (∃ u' : User τ, User.restore (User.backup u pwd) pwd tr = .ok u' ∧
      User.beq u' u = true) ∧
    (∀ pwd' : Nat, pwd' ≠ pwd →
      User.restore (User.backup u pwd) pwd' tr = .error .macMismatch) := by
  have h0 : deserializeState (serializeState u.state) = some (u.state, []) := by
    have h := deserializeState_round u.state hwf []
    rwa [List.append_nil] at h
  constructor
  · refine ⟨⟨tr, u.state⟩, ?_, ?_⟩
    · unfold User.restore User.backup backupState restoreState deriveKey
      simp [h0, Except.map]
    · unfold User.beq
      simp
  · intro pwd' hne
    have hne' : pwd ≠ pwd' := fun h => hne h.symm
    unfold User.restore User.backup backupState restoreState deriveKey
    simp [hne', Except.map]

/-- C1 witness: the concrete two-branch lean author state round-trips under
password 42 and fails with a MAC mismatch under any other password. -/
theorem C1_backup_restore_roundtrip_witness :
    (∃ u' : User Transport,
      User.restore (User.backup (⟨[], stC1⟩ : User Transport) 42) 42 ([] : Transport) =
        .ok u' ∧
      User.beq u' (⟨[], stC1⟩ : User Transport) = true) ∧
    (∀ pwd' : Nat, pwd' ≠ 42 →
      User.restore (User.backup (⟨[], stC1⟩ : User Transport) 42) pwd' ([] : Transport) =
        .error .macMismatch) :=
  C1_backup_restore_roundtrip (⟨[], stC1⟩ : User Transport) ([] : Transport) 42 (by decide)

/-- C2 counterexample: the keyload lists identifier 1 with the non-read-only
permission `ReadWrite(1, UntilSequence 4)`; the branch tracked it under the
different permission `ReadWrite(1, Perpetual)` at cursor 7. After handling,
the entry is re-bound to the listed permission but keeps cursor 7 — it is not
inserted at `INIT_MESSAGE_NUM = 1` as the claim states. -/
theorem C2_counterexample :
    ((handleKeyload stC2 addrC2 hdrC2 subsC2 42).toOption.map
      (fun s' => CursorStore.entryAt s'.cursor_store 0 1)) =
      some (some (.readWrite 1 (.untilSequence 4), 7)) ∧
    (Permissioned.readWrite 1 (.untilSequence 4)).isReadonly = false ∧
    CursorStore.entryAt stC2.cursor_store 0 1 = some (.readWrite 1 .perpetual, 7) ∧
    (7 : Nat) ≠ INIT_MESSAGE_NUM := by
  decide

/-- C2 amended: after a user successfully handles a keyload on branch `t`, the
publisher's entry is first re-bound to `Admin(publisher)` at the header's
sequence. Relative to that intermediate store `cs₁`: every identifier listed
with a non-read-only permission ends up tracked under the listed permission —
at its `cs₁` cursor when it was tracked, and at `INIT_MESSAGE_NUM = 1` when it
was not; every identifier tracked in `cs₁` that is neither the author nor
listed is re-bound to `Read` with its cursor preserved; and the keyload's
sponge snapshot is stored under the keyload address. -/
theorem C2_handleKeyload_update (s : State) (address : Address) (hdr : HDF)
    (subs : List Permissioned) (nsp : Spongos)
    (sa : Address) (hsa : s.stream_address = some sa)
    (t : Topic) (ht : topicByHash s hdr.topicHash = some t)
    (perm : Permissioned)
    (hp : CursorStore.getPermission s.cursor_store t hdr.publisher = some perm)
    (hadmin : perm.isAdmin = true)
    (auth : Identifier) (hauth : s.author_identifier = some auth)
    (asp : Spongos) (hasp : AList.lookup s.spongos_store sa.relative = some asp)
    (hnd : CursorStore.BranchNodupIds s.cursor_store t)
    (hsubs : (subs.map (·.identifier)).Nodup)
    (cs₁ : CursorStore)
    (hcs₁ : cs₁ = CursorStore.insertCursor s.cursor_store t (.admin hdr.publisher)
      hdr.sequence) :
    ∃ s', handleKeyload s address hdr subs nsp = .ok s' ∧
      (∀ p ∈ subs, p.isReadonly = false →
        CursorStore.entryAt s'.cursor_store t p.identifier =
          some (p, ((CursorStore.entryAt cs₁ t p.identifier).map (·.2)).getD
            INIT_MESSAGE_NUM)) ∧
      (∀ i q c, CursorStore.entryAt cs₁ t i = some (q, c) → i ≠ auth →
        (∀ p ∈ subs, p.identifier ≠ i) →
        CursorStore.entryAt s'.cursor_store t i = some (.read i, c)) ∧
      AList.lookup s'.spongos_store address.relative = some nsp := by
  have hb0 : ∃ b0, AList.lookup s.cursor_store t = some b0 := by
    rw [CursorStore.getPermission_eq_entry] at hp
    cases hb' : AList.lookup s.cursor_store t with
    | none =>
      rw [CursorStore.entryAt_of_lookup_none _ _ _ hb'] at hp
      exact Option.noConfusion hp
    | some b => exact ⟨b, rfl⟩
  obtain ⟨b0, hb0⟩ := hb0
  have hnd₁ : CursorStore.BranchNodupIds cs₁ t := by
    rw [hcs₁]
    exact CursorStore.branchNodup_insertCursor s.cursor_store t _ _ hnd
  have hbs₁ : (AList.lookup cs₁ t).isSome = true := by
    rw [hcs₁, CursorStore.lookup_isSome_insertCursor, hb0]
    rfl
  obtain ⟨b₁, hb₁⟩ := Option.isSome_iff_exists.mp hbs₁
  have hacc₁ : ∀ e ∈ b₁.cursors, CursorStore.entryAt cs₁ t e.1.identifier = some e :=
    CursorStore.entryAt_of_mem cs₁ t b₁ hb₁ hnd₁
  have hids₁ : (b₁.cursors.map (·.1.identifier)).Nodup := hnd₁ b₁ hb₁
  obtain ⟨dLf, dLe, dLnd, dLs⟩ := demoteLoop_spec auth subs t b₁.cursors cs₁ hnd₁ hids₁ hacc₁
  have hbs₂ : (AList.lookup (demoteLoop auth subs t b₁.cursors cs₁) t).isSome = true := by
    rw [dLs]
    exact hbs₁
  obtain ⟨iLf, iLe⟩ := insertLoop_spec t subs (demoteLoop auth subs t b₁.cursors cs₁)
    dLnd hsubs hbs₂
  have hcbt : CursorStore.cursorsByTopic cs₁ t = some b₁.cursors := by
    unfold CursorStore.cursorsByTopic
    rw [hb₁]
    rfl
  refine ⟨{ s with
      cursor_store := CursorStore.setLatestLink
        (insertLoop t subs (demoteLoop auth subs t b₁.cursors cs₁)) t address.relative,
      spongos_store := AList.insert s.spongos_store address.relative nsp },
    ?_, ?_, ?_, ?_⟩
  · simp only [handleKeyload, hsa, ht, hp, hadmin, hauth, hasp, ← hcs₁, hcbt,
      Bool.not_true, Bool.false_eq_true, if_false]
  · intro p hp' hpro
    show CursorStore.entryAt (CursorStore.setLatestLink
        (insertLoop t subs (demoteLoop auth subs t b₁.cursors cs₁)) t address.relative)
        t p.identifier = _
    rw [CursorStore.entryAt_setLatestLink]
    have htrans : CursorStore.entryAt (demoteLoop auth subs t b₁.cursors cs₁) t p.identifier
        = CursorStore.entryAt cs₁ t p.identifier := by
      by_cases hex : ∃ e ∈ b₁.cursors, e.1.identifier = p.identifier
      · obtain ⟨e, he, heid⟩ := hex
        have hcond : (decide (e.1.identifier = auth)
            || subs.any (fun p' => decide (p'.identifier = e.1.identifier))) = true := by
          have hany : subs.any (fun p' => decide (p'.identifier = e.1.identifier)) = true := by
            rw [List.any_eq_true]
            exact ⟨p, hp', by rw [heid]; simp⟩
          rw [hany, Bool.or_true]
        rw [← heid, dLe e he, if_pos hcond, hacc₁ e he]
      · exact dLf p.identifier (fun e he hc => hex ⟨e, he, hc⟩)
    rw [iLe p hp' hpro, htrans]
  · intro i q c hE hia hisubs
    show CursorStore.entryAt (CursorStore.setLatestLink
        (insertLoop t subs (demoteLoop auth subs t b₁.cursors cs₁)) t address.relative)
        t i = some (.read i, c)
    rw [CursorStore.entryAt_setLatestLink]
    have hEf : b₁.entryFor i = some (q, c) :=
      (CursorStore.entryAt_of_lookup_some cs₁ t i b₁ hb₁).symm.trans hE
    have hqid : q.identifier = i := by
      have := List.find?_some hEf
      simpa using this
    have hmem : ((q, c) : Permissioned × Nat) ∈ b₁.cursors :=
      List.mem_of_find?_eq_some hEf
    have hcond : (decide ((q, c).1.identifier = auth)
        || subs.any (fun p' => decide (p'.identifier = (q, c).1.identifier))) = false := by
      rw [Bool.or_eq_false_iff]
      constructor
      · exact decide_eq_false (fun hc : (q, c).1.identifier = auth =>
          hia (by rw [← hqid]; exact hc))
      · rw [List.any_eq_false]
        intro p' hp' hc
        have hc' : p'.identifier = i := by
          rw [← hqid]
          exact of_decide_eq_true hc
        exact hisubs p' hp' hc'
    rw [iLf i hisubs]
    have hd := dLe (q, c) hmem
    rw [hcond] at hd
    simp only [Bool.false_eq_true, if_false] at hd
    rw [show ((q, c) : Permissioned × Nat).1.identifier = i from hqid] at hd
    exact hd
  · show AList.lookup (AList.insert s.spongos_store address.relative nsp) address.relative
      = some nsp
    exact AList.lookup_insert_self s.spongos_store address.relative nsp

/-- C2 amended witness: instantiated at the concrete keyload handled by
`stC2`. -/
theorem C2_handleKeyload_update_witness :
    ∃ s', handleKeyload stC2 addrC2 hdrC2 subsC2 42 = .ok s' ∧
      (∀ p ∈ subsC2, p.isReadonly = false →
        CursorStore.entryAt s'.cursor_store 0 p.identifier =
          some (p, ((CursorStore.entryAt
            (CursorStore.insertCursor stC2.cursor_store 0 (.admin 0) 3) 0
            p.identifier).map (·.2)).getD INIT_MESSAGE_NUM)) ∧
      (∀ i q c, CursorStore.entryAt
          (CursorStore.insertCursor stC2.cursor_store 0 (.admin 0) 3) 0 i = some (q, c) →
        i ≠ 0 → (∀ p ∈ subsC2, p.identifier ≠ i) →
        CursorStore.entryAt s'.cursor_store 0 i = some (.read i, c)) ∧
      AList.lookup s'.spongos_store addrC2.relative = some 42 :=
  C2_handleKeyload_update stC2 addrC2 hdrC2 subsC2 42 ⟨⟨0, 0⟩, annMsgId⟩ (by decide)
    0 (by decide) (.admin 0) (by decide) (by decide) 0 (by decide) 7 (by decide)
    (by decide) (by decide)
    (CursorStore.insertCursor stC2.cursor_store 0 (.admin 0) 3) rfl

/-- C3: for every cursor store, topic, permission `p` and cursor `c`, over a
branch tracking each identifier at most once: if the branch holds an entry for
`p.identifier()` under a permission different from `p`, `insert_cursor`
re-binds it to `p` keeping the previously stored cursor and ignoring `c`; if
the branch exists but holds no entry for `p.identifier()`, `(p, c)` is
inserted as given. -/
theorem C3_insertCursor_rebind_keeps_cursor (cs : CursorStore) (t : Topic)
    (p : Permissioned) (c : Nat) (hnd : CursorStore.BranchNodupIds cs t)
    (b : InnerCursorStore) (hb : AList.lookup cs t = some b) :
    (∀ q c0, CursorStore.entryAt cs t p.identifier = some (q, c0) → q ≠ p →
      CursorStore.getPermission (CursorStore.insertCursor cs t p c) t p.identifier = some p ∧
      CursorStore.getCursor (CursorStore.insertCursor cs t p c) t p.identifier = some c0) ∧
    (CursorStore.entryAt cs t p.identifier = none →
      CursorStore.getPermission (CursorStore.insertCursor cs t p c) t p.identifier = some p ∧
      CursorStore.getCursor (CursorStore.insertCursor cs t p c) t p.identifier = some c) := by
  have hself := CursorStore.entryAt_insertCursor_self cs t p c hnd b hb
  constructor
  · intro q c0 hq hqp
    rw [hq] at hself
    rw [CursorStore.getPermission_eq_entry, CursorStore.getCursor_eq_entry, hself]
    simp [hqp]
  · intro hnone
    rw [hnone] at hself
    rw [CursorStore.getPermission_eq_entry, CursorStore.getCursor_eq_entry, hself]
    simp

/-- C3 witness: re-binding `ReadWrite(0, Perpetual)` at cursor 5 to `Admin(0)`
with argument cursor 3 keeps cursor 5; inserting the fresh identifier 9 at
cursor 3 stores cursor 3. -/
theorem C3_insertCursor_rebind_keeps_cursor_witness :
    (CursorStore.getPermission (CursorStore.insertCursor [(0, branchC3)] 0 (.admin 0) 3) 0 0 =
        some (.admin 0) ∧
      CursorStore.getCursor (CursorStore.insertCursor [(0, branchC3)] 0 (.admin 0) 3) 0 0 =
        some 5) ∧
    (CursorStore.getPermission (CursorStore.insertCursor [(0, branchC3)] 0 (.admin 9) 3) 0 9 =
        some (.admin 9) ∧
      CursorStore.getCursor (CursorStore.insertCursor [(0, branchC3)] 0 (.admin 9) 3) 0 9 =
        some 3) :=
  ⟨(C3_insertCursor_rebind_keeps_cursor [(0, branchC3)] 0 (.admin 0) 3 (by decide)
      branchC3 (by decide)).1 (.readWrite 0 .perpetual) 5 (by decide) (by decide),
   (C3_insertCursor_rebind_keeps_cursor [(0, branchC3)] 0 (.admin 9) 3 (by decide)
      branchC3 (by decide)).2 (by decide)⟩

/-- C4 counterexample: re-binding identifier 0 in branch 0 removes its entry
from branch 1 as well — `insert_cursor` does not only modify the branch of the
given topic. -/
theorem C4_counterexample :
    CursorStore.entryAt csC4 1 0 = some (.read 0, 7) ∧
    CursorStore.entryAt (CursorStore.insertCursor csC4 0 (.admin 0) 3) 1 0 = none := by
  decide

/-- C4 amended: `insert_cursor(topic, p, c)` leaves every entry for an
identifier other than `p.identifier()` in every other branch unchanged; the
entry for `p.identifier()` in another branch is removed exactly when the
target branch tracked the identifier under a permission different from `p`,
and is unchanged otherwise. -/
theorem C4_insertCursor_frame (cs : CursorStore) (t : Topic) (p : Permissioned) (c : Nat)
    (t' : Topic) (ht : t' ≠ t) (hnd' : CursorStore.BranchNodupIds cs t') :
    (∀ j, j ≠ p.identifier →
      CursorStore.entryAt (CursorStore.insertCursor cs t p c) t' j =
        CursorStore.entryAt cs t' j) ∧
    ((∃ q c0, CursorStore.entryAt cs t p.identifier = some (q, c0) ∧ q ≠ p) →
      CursorStore.entryAt (CursorStore.insertCursor cs t p c) t' p.identifier = none) ∧
    ((∀ q c0, CursorStore.entryAt cs t p.identifier = some (q, c0) → q = p) →
      CursorStore.entryAt (CursorStore.insertCursor cs t p c) t' p.identifier =
        CursorStore.entryAt cs t' p.identifier) := by
  refine ⟨fun j hj => CursorStore.entryAt_insertCursor_topic_other cs t p c t' j ht hj,
    ?_, ?_⟩
  · rintro ⟨q, c0, hq, hqp⟩
    have hgp : CursorStore.getPermission cs t p.identifier = some q := by
      rw [CursorStore.getPermission_eq_entry, hq]
      rfl
    exact CursorStore.entryAt_insertCursor_topic_self_diff cs t p c t' ht hnd' q hgp hqp
  · intro hall
    apply CursorStore.entryAt_insertCursor_topic_self_nodiff cs t p c t' ht
    cases hq : CursorStore.entryAt cs t p.identifier with
    | none =>
      left
      rw [CursorStore.getPermission_eq_entry, hq]
      rfl
    | some e =>
      right
      obtain ⟨q, c0⟩ := e
      rw [CursorStore.getPermission_eq_entry, hq, Option.map_some', hall q c0 hq]

/-- C4 amended witness: on the two-branch store, inserting a permission that
matches the stored one leaves the other branch unchanged, and the entries of
other identifiers are never touched. -/
theorem C4_insertCursor_frame_witness :
    (CursorStore.entryAt (CursorStore.insertCursor csC4 0 (.readWrite 0 .perpetual) 3) 1 5 =
      CursorStore.entryAt csC4 1 5) ∧
    CursorStore.entryAt (CursorStore.insertCursor csC4 0 (.readWrite 0 .perpetual) 3) 1 0 =
      CursorStore.entryAt csC4 1 0 :=
  ⟨(C4_insertCursor_frame csC4 0 (.readWrite 0 .perpetual) 3 1 (by decide) (by decide)).1
      5 (by decide),
   (C4_insertCursor_frame csC4 0 (.readWrite 0 .perpetual) 3 1 (by decide) (by decide)).2.2
      (fun q c0 hq => by
        have he : CursorStore.entryAt csC4 0
            (Permissioned.readWrite 0 PermissionDuration.perpetual).identifier =
            some (.readWrite 0 .perpetual, 5) := by decide
        rw [he] at hq
        injection hq with h
        exact (congrArg Prod.fst h).symm)⟩

/-- C5 counterexample: a signed packet whose linked predecessor snapshot is
absent is returned as a header-only orphan, but the publisher's cursor in the
branch has been advanced from 5 to the header sequence 9 — the state is not
left completely unchanged. -/
theorem C5_counterexample :
    handleSignedPacket stC5 addrC5 hdrC5 =
      .ok (Message.orphan addrC5 hdrC5,
        { stC5 with cursor_store :=
          CursorStore.insertCursor stC5.cursor_store 0 (.readWrite 1 .perpetual) 9 }) ∧
    CursorStore.getCursor stC5.cursor_store 0 1 = some 5 ∧
    CursorStore.getCursor
      (CursorStore.insertCursor stC5.cursor_store 0 (.readWrite 1 .perpetual) 9) 0 1 =
      some 9 := by
  refine ⟨by rfl, by decide, by decide⟩

/-- C5 amended: on receiving a signed packet whose linked predecessor snapshot
is absent, the handler returns an orphan message populated only with the
parsed header, and the state is unchanged except that the publisher's cursor
entry in the branch has already been advanced to the header's sequence. -/
theorem C5_signedPacket_orphan (s : State) (address : Address) (hdr : HDF)
    (t : Topic) (ht : topicByHash s hdr.topicHash = some t)
    (perm : Permissioned)
    (hp : CursorStore.getPermission s.cursor_store t hdr.publisher = some perm)
    (linked : MsgId) (hl : hdr.linkedMsgAddress = some linked)
    (horphan : AList.lookup s.spongos_store linked = none) :
    handleSignedPacket s address hdr =
      .ok (Message.orphan address hdr,
        { s with cursor_store :=
          CursorStore.insertCursor s.cursor_store t perm hdr.sequence }) := by
  simp only [handleSignedPacket, ht, hp, hl, horphan]

/-- C5 amended witness: the concrete orphan evaluation. -/
theorem C5_signedPacket_orphan_witness :
    handleSignedPacket stC5 addrC5 hdrC5 =
      .ok (Message.orphan addrC5 hdrC5,
        { stC5 with cursor_store :=
          CursorStore.insertCursor stC5.cursor_store 0 (.readWrite 1 .perpetual) 9 }) :=
  C5_signedPacket_orphan stC5 addrC5 hdrC5 0 (by decide) (.readWrite 1 .perpetual)
    (by decide) (MsgId.gen ⟨0, 0⟩ 1 0 8) (by decide) (by decide)

/-- C6: `new_branch` does not probe the transport before sending: with a
message already stored at the computed target address, the call succeeds and
a second message is stored at that address instead of failing with a
duplicate-address error. -/
theorem C6_newBranch_sends_despite_duplicate :
    recvMessages trC6 ⟨⟨0, 0⟩, MsgId.gen ⟨0, 0⟩ 0 0 2⟩ = [9] ∧
    ((newBranch stC6 trC6 0 1).toOption.map
      (fun r => (r.2.2, recvMessages r.2.1 r.2.2))) =
      some (⟨⟨0, 0⟩, MsgId.gen ⟨0, 0⟩ 0 0 2⟩, [9, wireBytes]) := by
  decide

/-- C7 counterexample: after a successful `unsubscribe` by a user whose stored
permission was `ReadWrite` at cursor 5, the entry is `Read` at cursor 5 — not
at the bumped cursor 6 used for the message id. -/
theorem C7_counterexample :
    ((unsubscribe stC7 []).toOption.map
      (fun r => (CursorStore.getPermission r.1.cursor_store 0 1,
                 CursorStore.getCursor r.1.cursor_store 0 1))) =
      some (some (.read 1), some 5) ∧
    CursorStore.getPermission stC7.cursor_store 0 1 = some (.readWrite 1 .perpetual) ∧
    CursorStore.getCursor stC7.cursor_store 0 1 = some 5 := by
  decide

/-- C7 amended: after a successful `unsubscribe` by a user whose stored
permission in the base branch was not `Read`, the sender's own entry has
`Read` permission and the cursor it had before the call (the bumped cursor is
used only to generate the message id; `insert_cursor`'s re-binding rule drops
it and retains the stored cursor). -/
theorem C7_unsubscribe_read_at_old_cursor (s : State) (tr : Transport)
    (sa : Address) (hsa : s.stream_address = some sa)
    (uid : Identity) (huid : s.user_id = some uid)
    (link : MsgId)
    (hlink : CursorStore.getLatestLink s.cursor_store s.base_branch = some link)
    (lsp : Spongos) (hsp : AList.lookup s.spongos_store link = some lsp)
    (hnd : CursorStore.BranchNodupIds s.cursor_store s.base_branch)
    (p : Permissioned) (prevCursor : Nat)
    (hentry : CursorStore.entryAt s.cursor_store s.base_branch
      (Identity.identifier uid) = some (p, prevCursor))
    (hpne : p ≠ .read (Identity.identifier uid))
    (hprobe : ∀ m, recvMessageAt tr
      ⟨sa.base, MsgId.gen sa.base (Identity.identifier uid) s.base_branch (prevCursor + 1)⟩
        ≠ .ok m) :
    ∃ s' tr', unsubscribe s tr =
      .ok (s', tr',
        ⟨sa.base, MsgId.gen sa.base (Identity.identifier uid) s.base_branch (prevCursor + 1)⟩) ∧
      CursorStore.getPermission s'.cursor_store s.base_branch (Identity.identifier uid) =
        some (.read (Identity.identifier uid)) ∧
      CursorStore.getCursor s'.cursor_store s.base_branch (Identity.identifier uid) =
        some prevCursor := by
  have hcur : CursorStore.getCursor s.cursor_store s.base_branch (Identity.identifier uid)
      = some prevCursor := by
    rw [CursorStore.getCursor_eq_entry, hentry]
    rfl
  have hnext : State.nextCursor s s.base_branch = some (prevCursor + 1) := by
    unfold State.nextCursor State.cursor
    rw [huid]
    show (CursorStore.getCursor s.cursor_store s.base_branch
      (Identity.identifier uid)).map (· + 1) = some (prevCursor + 1)
    rw [hcur]
    rfl
  have hbex : ∃ b, AList.lookup s.cursor_store s.base_branch = some b := by
    cases hb : AList.lookup s.cursor_store s.base_branch with
    | none =>
      rw [CursorStore.entryAt_of_lookup_none _ _ _ hb] at hentry
      exact Option.noConfusion hentry
    | some b => exact ⟨b, rfl⟩
  obtain ⟨b, hb⟩ := hbex
  simp only [unsubscribe, hsa, huid, hlink, hnext, hsp]
  cases hpm : recvMessageAt tr
      ⟨sa.base, MsgId.gen sa.base (Identity.identifier uid) s.base_branch (prevCursor + 1)⟩ with
  | ok m => exact absurd hpm (hprobe m)
  | error e =>
    have hself := CursorStore.entryAt_insertCursor_self s.cursor_store s.base_branch
      (.read (Identity.identifier uid)) (prevCursor + 1) hnd b hb
    rw [show (Permissioned.read (Identity.identifier uid)).identifier
      = Identity.identifier uid from rfl, hentry] at hself
    have hself' : (CursorStore.insertCursor s.cursor_store s.base_branch
        (.read (Identity.identifier uid)) (prevCursor + 1)).entryAt s.base_branch
        (Identity.identifier uid) =
        some (.read (Identity.identifier uid), prevCursor) := by
      rw [hself]
      simp [hpne]
    refine ⟨_, _, rfl, ?_, ?_⟩
    · show CursorStore.getPermission
        (CursorStore.insertCursor s.cursor_store s.base_branch
          (.read (Identity.identifier uid)) (prevCursor + 1)) s.base_branch
        (Identity.identifier uid) = some (.read (Identity.identifier uid))
      rw [CursorStore.getPermission_eq_entry, hself']
      rfl
    · show CursorStore.getCursor
        (CursorStore.insertCursor s.cursor_store s.base_branch
          (.read (Identity.identifier uid)) (prevCursor + 1)) s.base_branch
        (Identity.identifier uid) = some prevCursor
      rw [CursorStore.getCursor_eq_entry, hself']
      rfl

/-- C7 amended witness: instantiated at the concrete subscriber state. -/
theorem C7_unsubscribe_read_at_old_cursor_witness :
    ∃ s' tr', unsubscribe stC7 [] =
      .ok (s', tr', ⟨⟨0, 0⟩, MsgId.gen ⟨0, 0⟩ (Identity.identifier 1) 0 (5 + 1)⟩) ∧
      CursorStore.getPermission s'.cursor_store 0 (Identity.identifier 1) =
        some (.read (Identity.identifier 1)) ∧
      CursorStore.getCursor s'.cursor_store 0 (Identity.identifier 1) = some 5 :=
  C7_unsubscribe_read_at_old_cursor stC7 [] ⟨⟨0, 0⟩, annMsgId⟩ (by decide) 1 (by decide)
    annMsgId (by decide) 7 (by decide) (by decide) (.readWrite 1 .perpetual) 5 (by decide)
    (by decide) (fun m h => Except.noConfusion h)

/-- C8: for a lean-mode user, storing a snapshot for message `m` linked to a
predecessor `l` (distinct from `m`) inserts `m`'s snapshot and removes `l`'s,
except that `l`'s snapshot is retained when `l` is the stream announcement. -/
theorem C8_storeSpongos_lean_eviction (s : State) (m : MsgId) (sp : Spongos) (l : MsgId)
    (hlean : s.lean = true) (hml : m ≠ l) :
    AList.lookup (storeSpongos s m sp l).spongos_store m = some sp ∧
    ((∃ a, s.stream_address = some a ∧ a.relative = l) →
      AList.lookup (storeSpongos s m sp l).spongos_store l =
        AList.lookup s.spongos_store l) ∧
    (¬(∃ a, s.stream_address = some a ∧ a.relative = l) →
      AList.lookup (storeSpongos s m sp l).spongos_store l = none) := by
  rw [storeSpongos_spongos_store]
  refine ⟨AList.lookup_insert_self _ m sp, ?_, ?_⟩
  · rintro ⟨a, ha, hrel⟩
    have hcond : (s.lean && !(match s.stream_address with
        | some x => decide (x.relative = l)
        | none => false)) = false := by
      rw [ha]
      simp [hrel]
    rw [hcond]
    simp only [Bool.false_eq_true, if_false]
    exact AList.lookup_insert_ne s.spongos_store m l sp (fun hc => hml hc.symm)
  · intro hno
    have hcond : (s.lean && !(match s.stream_address with
        | some x => decide (x.relative = l)
        | none => false)) = true := by
      cases ha : s.stream_address with
      | none => rw [hlean]; rfl
      | some a =>
        have hrel : a.relative ≠ l := fun hc => hno ⟨a, ha, hc⟩
        rw [hlean]
        simp [hrel]
    rw [hcond]
    simp only [if_true]
    rw [AList.lookup_insert_ne _ m l sp (fun hc => hml hc.symm)]
    exact AList.lookup_erase_self s.spongos_store l

/-- C8 witness: the concrete lean user evicts the linked packet snapshot and
retains the announcement snapshot. -/
theorem C8_storeSpongos_lean_eviction_witness :
    AList.lookup (storeSpongos stC8 (MsgId.gen ⟨0, 0⟩ 1 0 3) 99
      (MsgId.gen ⟨0, 0⟩ 1 0 2)).spongos_store (MsgId.gen ⟨0, 0⟩ 1 0 3) = some 99 ∧
    (¬(∃ a, stC8.stream_address = some a ∧ a.relative = MsgId.gen ⟨0, 0⟩ 1 0 2) →
      AList.lookup (storeSpongos stC8 (MsgId.gen ⟨0, 0⟩ 1 0 3) 99
        (MsgId.gen ⟨0, 0⟩ 1 0 2)).spongos_store (MsgId.gen ⟨0, 0⟩ 1 0 2) = none) :=
  ⟨(C8_storeSpongos_lean_eviction stC8 (MsgId.gen ⟨0, 0⟩ 1 0 3) 99
      (MsgId.gen ⟨0, 0⟩ 1 0 2) (by decide) (by decide)).1,
   (C8_storeSpongos_lean_eviction stC8 (MsgId.gen ⟨0, 0⟩ 1 0 3) 99
      (MsgId.gen ⟨0, 0⟩ 1 0 2) (by decide) (by decide)).2.2⟩

/-- C9: `recv_message` succeeds iff `recv_messages` yields exactly one
message, returning that message; zero messages and more than one message are
distinct failures. -/
theorem C9_recvMessage_exactly_one (tr : Transport) (a : Address) :
    ((∃ m, recvMessageAt tr a = .ok m) ↔ (recvMessages tr a).length = 1) ∧
    (∀ m, recvMessages tr a = [m] → recvMessageAt tr a = .ok m) ∧
    (recvMessages tr a = [] → recvMessageAt tr a = .error (.notFound a)) ∧
    ((recvMessages tr a).length > 1 → recvMessageAt tr a = .error (.moreThanOne a)) ∧
    (TransportError.notFound a ≠ TransportError.moreThanOne a) := by
  unfold recvMessageAt
  cases hm : recvMessages tr a with
  | nil =>
    refine ⟨⟨?_, ?_⟩, ?_, ?_, ?_, by simp⟩
    · rintro ⟨m, hmm⟩
      rw [recvMessage_nil] at hmm
      exact Except.noConfusion hmm
    · intro h
      simp at h
    · intro m h
      exact absurd h (by simp)
    · intro _
      exact recvMessage_nil a
    · intro h
      simp at h
  | cons x xs =>
    cases xs with
    | nil =>
      refine ⟨⟨fun _ => rfl, fun _ => ⟨x, recvMessage_single x a⟩⟩, ?_, ?_, ?_, by simp⟩
      · intro m h
        obtain rfl : x = m := by
          injection h with h1 _
        exact recvMessage_single x a
      · intro h
        exact absurd h (by simp)
      · intro h
        simp at h
    | cons y t =>
      refine ⟨⟨?_, ?_⟩, ?_, ?_, ?_, by simp⟩
      · rintro ⟨m, hmm⟩
        rw [recvMessage_multi] at hmm
        exact Except.noConfusion hmm
      · intro h
        simp at h
      · intro m h
        simp at h
      · intro h
        exact absurd h (by simp)
      · intro _
        exact recvMessage_multi x y t a

/-- C10: `User` equality is determined solely by the state: `beq` holds iff
the states are equal, so two users with equal state but different transport
values compare equal. -/
theorem C10_user_eq_is_state_eq (τ : Type) (u1 u2 : User τ) (t1 t2 : τ) (s : State) :
    (User.beq u1 u2 = true ↔ u1.state = u2.state) ∧
    User.beq (User.mk t1 s) (User.mk t2 s) = true := by
  constructor
  · unfold User.beq
    exact decide_eq_true_iff
  · unfold User.beq
    exact decide_eq_true rfl

end Streams
